import Mathlib

set_option autoImplicit false

/-!
Shallow embedding of the update-synchronization engine of the
crm-client-splash-update repository and proofs about it.

Embedded code:
 - src/utils/update_manager.py (sha256_file, fetch_manifest, load_local_manifest,
   save_local_manifest, get_missing_or_corrupted_files, download_file,
   download_missing_files); src/update_manager.py is a flat variant of the same
   functions with character-identical logic for the parts modelled here.
 - src/utils/Requests.py (Requests._request as used by fetch_manifest).
 - src/SplashScreen.py (SplashScreen.check_for_update, the sync orchestrator).

Modelling conventions:
 - Python JSON-shaped values (strings, None, dicts with string keys) are the
   inductive PyValue; Python dict iteration order is insertion order, modelled
   by the order of an association list.
 - Exceptions are modelled with Except PyExc; a returned .error is an
   exception propagating to the caller.
 - SHA-256 (hashlib) is an external primitive, modelled as a hash-function
   parameter sha : Bytes -> String.
 - The JSON codec (json.load / json.dump) is modelled at the granularity of
   JSON documents: the local manifest file either is absent, holds text that
   is not valid JSON, or holds a JSON document; json.dump with sort_keys=True
   recursively sorts dict keys, and its indentation is invisible at this
   granularity.  The JSON parser used by the HTTP layer is likewise a
   parameter parse : String -> Option PyValue (none = not valid JSON).
 - Python float arithmetic is modelled faithfully as IEEE-754 binary64
   round-to-nearest-even, implemented exactly on the rationals: fl rounds a
   rational to 53 significant bits (unbounded exponent, which coincides with
   binary64 wherever no overflow or gradual underflow occurs; the quotients
   and percentages arising here are far inside that range).  CPython rounds
   int/int true division once, correctly, from the exact ratio; float+float,
   float*float and float/float are correctly rounded; an int operand of a
   float operation is first converted to float, which rounds the same way.
   int() truncates toward zero.
-/

/-- Python values as they occur in this program: strings, None, and
dictionaries with string keys (the shapes JSON produces here). -/
inductive PyValue where
  | pstr (s : String)
  | pnone
  | pdict (entries : List (String × PyValue))

/-- Content of a file, as an abstract byte list. -/
abbrev Bytes := List Nat

/-- A directory of local files, mapping relative path to file content.
Models the subtree of the filesystem under the working directory. -/
abbrev FileSystem := List (String × Bytes)

/-- First-match association-list lookup.  Python dict keys are unique, so
first-match lookup agrees with dict lookup; the list order is the dict
iteration (insertion) order. -/
def alookup {α : Type} : List (String × α) → String → Option α
  | [], _ => none
  | (k, v) :: rest, key => if k = key then some v else alookup rest key

/-- Python equality test between a string and an embedded value; the only
equality comparisons the source performs compare against a string
(`sha256_file(...) != server_hash` and `server_manifest["err"] == "DNS_ERROR"`).
Comparing a string with a non-string Python value yields False. -/
def pyEqStr (s : String) (v : PyValue) : Bool :=
  match v with
  | .pstr t => s == t
  | _ => false

/-- The Python exceptions that can surface in the modelled code. -/
inductive PyExc where
  | keyError (key : String)
  | typeError (msg : String)
  | attributeError (msg : String)
  | jsonDecodeError
  | contentTypeError
  | clientConnectorDNSError
  | clientResponseError (status : Nat) (message : PyValue)
  | clientError (msg : String)

/-- Python dict indexing `v[k]`: KeyError when the key is missing, TypeError
when the receiver is not a dict. -/
def pyIndex (v : PyValue) (k : String) : Except PyExc PyValue :=
  match v with
  | .pdict d =>
    match alookup d k with
    | some w => .ok w
    | none => .error (.keyError k)
  | .pstr _ => .error (.typeError "string indices must be integers")
  | .pnone => .error (.typeError "NoneType object is not subscriptable")

/-- Python dict `.get(k)`: returns None when the key is missing;
AttributeError when the receiver is not a dict. -/
def pyGet (v : PyValue) (k : String) : Except PyExc PyValue :=
  match v with
  | .pdict d => .ok ((alookup d k).getD .pnone)
  | .pstr _ => .error (.attributeError "str object has no attribute get")
  | .pnone => .error (.attributeError "NoneType object has no attribute get")

/-- Python dict `.items()`: the entry list in iteration order; AttributeError
when the receiver is not a dict. -/
def pyItems (v : PyValue) : Except PyExc (List (String × PyValue)) :=
  match v with
  | .pdict d => .ok d
  | .pstr _ => .error (.attributeError "str object has no attribute items")
  | .pnone => .error (.attributeError "NoneType object has no attribute items")

/-- Membership test `k in v` (Python `in`): key membership for dicts,
substring test for strings, TypeError for None. -/
def pyContains (v : PyValue) (k : String) : Except PyExc Bool :=
  match v with
  | .pdict d => .ok (alookup d k).isSome
  | .pstr s => .ok (decide (k.toList <:+: s.toList))
  | .pnone => .error (.typeError "argument of type NoneType is not iterable")

/-- sha256_file of src/utils/update_manager.py: reads the file in 64 KiB
chunks through a SHA-256 accumulator, which amounts to hashing the whole
content; the hash itself is the external primitive `sha`. -/
def sha256_file (sha : Bytes → String) (content : Bytes) : String :=
  sha content

/-- Loop body of get_missing_or_corrupted_files.  In the source,
`local_manifest["files"].get(rel_path)` is evaluated inside the loop, so its
exceptions fire only when the server files dict is non-empty; the looked-up
local hash is bound and discarded, exactly as in the source. -/
def gmocLoop (sha : Bytes → String) (local_dir : FileSystem) (local_manifest : PyValue) :
    List (String × PyValue) → Except PyExc (List String)
  | [] => .ok []
  | (rel_path, server_hash) :: rest =>
    match pyIndex local_manifest "files" with
    | .error e => .error e
    | .ok lfiles =>
      match pyGet lfiles rel_path with
      | .error e => .error e
      | .ok _local_hash =>
        let needed :=
          match alookup local_dir rel_path with
          | none => true
          | some content => !(pyEqStr (sha256_file sha content) server_hash)
        match gmocLoop sha local_dir local_manifest rest with
        | .error e => .error e
        | .ok tail => .ok (if needed then rel_path :: tail else tail)

/-- get_missing_or_corrupted_files of src/utils/update_manager.py (identical
in src/update_manager.py): for each (rel_path, server_hash) of
server_manifest["files"] in iteration order, flags the path when the local
file is missing or its hash differs from the server hash. -/
def get_missing_or_corrupted_files (sha : Bytes → String) (local_dir : FileSystem)
    (server_manifest local_manifest : PyValue) : Except PyExc (List String) :=
  match pyIndex server_manifest "files" with
  | .error e => .error e
  | .ok sfiles =>
    match pyItems sfiles with
    | .error e => .error e
    | .ok items => gmocLoop sha local_dir local_manifest items

/-- State of the local manifest file MANIFEST_LOCAL on disk, at the
granularity of JSON documents: absent, present with text that is not valid
JSON, or present with a JSON document. -/
inductive LocalFile where
  | absent
  | invalid (raw : String)
  | json (v : PyValue)

/-- load_local_manifest of src/utils/update_manager.py: if the file exists it
is parsed with json.load, whose failure on invalid JSON raises
json.JSONDecodeError (there is no try/except in the source); if the file does
not exist the default empty manifest is returned. -/
def load_local_manifest : LocalFile → Except PyExc PyValue
  | .absent => .ok (.pdict [("files", .pdict [])])
  | .invalid _ => .error .jsonDecodeError
  | .json v => .ok v

/-- Recursive key sort performed by json.dump(..., sort_keys=True): every
dict in the document has its entries sorted by key.  The sort order itself is
irrelevant to the proofs below; only that the result is a permutation. -/
def sortKeysRec : PyValue → PyValue
  | .pstr s => .pstr s
  | .pnone => .pnone
  | .pdict d => .pdict (List.insertionSort (fun a b => a.1 ≤ b.1)
      (d.attach.map (fun x => (x.1.1, sortKeysRec x.1.2))))
termination_by v => sizeOf v
decreasing_by
  have hm := List.sizeOf_lt_of_mem x.2
  obtain ⟨⟨k, w⟩, _⟩ := x
  simp only [Prod.mk.sizeOf_spec] at hm ⊢
  simp only [PyValue.pdict.sizeOf_spec]
  omega

/-- save_local_manifest of src/utils/update_manager.py: json.dump with
indent=4 and sort_keys=True fully replaces the file content with the
serialized manifest (keys sorted recursively; indentation is formatting
only). -/
def save_local_manifest (manifest : PyValue) : LocalFile :=
  .json (sortKeysRec manifest)

/-- Rendering str(v) of a Python value, used for `str(text)` on a non-dict
response body and for f-string interpolation of exception values.  For the
values reached in the modelled flows this is only applied to strings and
None; the dict case is never reached and its exact rendering is immaterial. -/
def pyToStr : PyValue → String
  | .pstr s => s
  | .pnone => "None"
  | .pdict _ => "dict"

/-- The string f"{e}" of an aiohttp ClientResponseError carrying a status and
a message, as produced by fetch_manifest for its error dict.  The rendering
is injective in status and message, which is all the proofs rely on. -/
def clientResponseErrorStr (status : Nat) (message : PyValue) : String :=
  toString status ++ ", message=" ++ pyToStr message

/-- An HTTP response as seen by Requests._request: status code, whether the
Content-Type is JSON, and the raw body text. -/
structure HttpResponse where
  status : Nat
  jsonCT : Bool
  body : String

/-- The transport-level outcome of one HTTP request: hostname resolution
failure, some other connection-level failure, or a response from the
server. -/
inductive NetOutcome where
  | dnsError
  | otherConnError (msg : String)
  | gotResponse (r : HttpResponse)

/-- aiohttp `response.ok`: true exactly when the status is below 400;
`raise_for_status` raises exactly when this is false. -/
def httpOk (status : Nat) : Bool :=
  status < 400

/-- aiohttp `response.json()`: raises ContentTypeError when the Content-Type
is not JSON, raises json.JSONDecodeError when the body is not valid JSON. -/
def response_json (parse : String → Option PyValue) (r : HttpResponse) :
    Except PyExc PyValue :=
  if r.jsonCT then
    match parse r.body with
    | some v => .ok v
    | none => .error .jsonDecodeError
  else .error .contentTypeError

/-- Requests._request of src/utils/Requests.py for the GET issued by
fetch_manifest (no progress callback): on a non-ok status it builds the error
message from the detail field of the JSON body when the body parses as a JSON dict
(None when the field is absent), else from the raw text, and raises
ClientResponseError; on an ok status it returns the JSON-decoded body, or the
raw text when the body is not valid JSON. -/
def Requests_request (parse : String → Option PyValue) (net : NetOutcome) :
    Except PyExc PyValue :=
  match net with
  | .dnsError => .error .clientConnectorDNSError
  | .otherConnError s => .error (.clientError s)
  | .gotResponse r =>
    if httpOk r.status then
      match parse r.body with
      | some v => .ok v
      | none => .ok (.pstr r.body)
    else
      match response_json parse r with
      | .ok t =>
        let message :=
          match t with
          | .pdict d => (alookup d "detail").getD .pnone
          | v => .pstr (pyToStr v)
        .error (.clientResponseError r.status message)
      | .error .contentTypeError =>
        .error (.clientResponseError r.status (.pstr (pyToStr (.pstr r.body))))
      | .error e => .error e

/-- fetch_manifest of src/utils/update_manager.py: returns the response on
success, an err dict "DNS_ERROR" on ClientConnectorDNSError, and an err dict
f"{e}" on ClientResponseError; every other exception propagates (there is no
other except clause in the source). -/
def fetch_manifest (parse : String → Option PyValue) (net : NetOutcome) :
    Except PyExc PyValue :=
  match Requests_request parse net with
  | .ok v => .ok v
  | .error .clientConnectorDNSError => .ok (.pdict [("err", .pstr "DNS_ERROR")])
  | .error (.clientResponseError st msg) =>
    .ok (.pdict [("err", .pstr (clientResponseErrorStr st msg))])
  | .error e => .error e

/-- Python int() truncation of a float value: truncation toward zero, which
on nonnegative values is the floor. -/
def pyInt (q : ℚ) : Int :=
  if 0 ≤ q then ⌊q⌋ else -⌊-q⌋

/-- Round a rational to the nearest integer, ties to even: the rounding of
IEEE-754 round-to-nearest-even at the integer scale. -/
def roundEven (x : ℚ) : Int :=
  if x - ⌊x⌋ < 1 / 2 then ⌊x⌋
  else if 1 / 2 < x - ⌊x⌋ then ⌊x⌋ + 1
  else if 2 ∣ ⌊x⌋ then ⌊x⌋ else ⌊x⌋ + 1

/-- The binary exponent of a positive rational: the unique e with
2 ^ e ≤ q < 2 ^ (e + 1), computed from the bit lengths of numerator and
denominator with one correction step. -/
def ilog2q (q : ℚ) : Int :=
  let n0 : Int := (Nat.log2 q.num.toNat : Int) - (Nat.log2 q.den : Int)
  if q < 2 ^ n0 then n0 - 1 else n0

/-- Binary64 rounding of a positive rational: scale into [2 ^ 52, 2 ^ 53),
round to the nearest integer significand with ties to even, and scale
back. -/
def flPos (q : ℚ) : ℚ :=
  (roundEven (q * 2 ^ (52 - ilog2q q)) : ℚ) * 2 ^ (ilog2q q - 52)

/-- IEEE-754 binary64 round-to-nearest-even of an exact rational value
(unbounded exponent: identical to binary64 away from overflow and gradual
underflow, which the byte counts and percentages of this program never
approach). -/
def fl (q : ℚ) : ℚ :=
  if q < 0 then -flPos (-q) else if q = 0 then 0 else flPos q

/-- Python float(int) conversion (and float literal): one binary64
rounding. -/
def pyFloat (q : ℚ) : ℚ :=
  fl q

/-- Python true division producing a float: correctly rounded from the exact
quotient of the operand values (CPython computes int/int and float/float
division this way; a zero divisor raises in Python and is never reached
here). -/
def fdiv (a b : ℚ) : ℚ :=
  fl (a / b)

/-- Python float multiplication: correctly rounded product. -/
def fmul (a b : ℚ) : ℚ :=
  fl (a * b)

/-- Python float addition: correctly rounded sum. -/
def fadd (a b : ℚ) : ℚ :=
  fl (a + b)

/-- One HTTP response of a file download: status, the declared Content-Length
header when present, the body chunks as delivered by iter_chunked, and
whether the connection drops (raises) after the listed chunks have been
delivered.  A drop after a strict prefix of the intended file is modelled by
listing only the delivered chunks. -/
structure DlResponse where
  status : Nat
  contentLength : Option Nat
  chunks : List Bytes
  drop : Bool

/-- Result of download_file: the bytes written to the destination file (none
when the file was never opened), the progress events fired, in order, and the
exception raised, if any. -/
structure DlOutcome where
  written : Option Bytes
  events : List (Int × String)
  err : Option PyExc

/-- The chunk loop of download_file: writes each chunk, accumulates
`downloaded`, and after each chunk, when the declared total is nonzero, fires
one progress event int(downloaded / total * 100), computed as Python does:
one correctly rounded int/int division, one correctly rounded float
multiplication by the converted literal 100, then int() truncation. -/
def dfLoop (total : Nat) (rel_path : String) : Nat → List Bytes → Bytes × List (Int × String)
  | _, [] => ([], [])
  | downloaded, c :: rest =>
    let downloaded' := downloaded + c.length
    let r := dfLoop total rel_path downloaded' rest
    (c ++ r.1,
      (if total ≠ 0 then
        [(pyInt (fmul (fdiv (downloaded' : ℚ) (total : ℚ)) (pyFloat 100)), rel_path)]
      else []) ++ r.2)

/-- download_file of src/utils/update_manager.py: raise_for_status before the
file is opened (so a non-2xx/3xx status writes nothing and fires no events);
then total = int(Content-Length or 0) and the chunk loop; a connection drop
raises after the delivered chunks, leaving the partial file written. -/
def download_file (rel_path : String) (r : DlResponse) : DlOutcome :=
  if ¬ httpOk r.status then
    { written := none, events := [],
      err := some (.clientResponseError r.status (.pstr "")) }
  else
    let total := r.contentLength.getD 0
    let res := dfLoop total rel_path 0 r.chunks
    { written := some res.1, events := res.2,
      err := if r.drop then some (.clientError "connection lost") else none }

/-- The per-batch progress transform applied by the lambda in
download_missing_files: int((i - 1 + p / 100) / total_files * 100) for the
i-th file (1-indexed) of total_files, computed as Python does: the int
subtraction i - 1 is exact, p / 100 is one correctly rounded int/int
division, the int operands i - 1 and total_files are converted to float
before the float addition and division, the product with the converted
literal 100 is correctly rounded, and int() truncates. -/
def batchPercent (i total_files : Nat) (p : Int) : Int :=
  pyInt (fmul (fdiv (fadd (pyFloat ((i : ℚ) - 1)) (fdiv (p : ℚ) 100))
    (pyFloat (total_files : ℚ))) (pyFloat 100))

/-- Result of download_missing_files: which files were attempted (in order),
the destination files written with their content, the progress events fired
through the batch lambda, and the exception raised, if any. -/
structure BatchOutcome where
  attempted : List String
  written : List (String × Bytes)
  events : List (Int × String)
  err : Option PyExc

/-- The enumerate(to_download, 1) loop of download_missing_files:
server_manifest["download_url"] is evaluated for each file (KeyError when
absent), the file is downloaded with the batch-scaled progress callback, and
the first exception aborts the remaining files. -/
def dmfLoop (server_manifest : PyValue) (env : String → DlResponse) (total_files : Nat) :
    Nat → List String → BatchOutcome
  | _, [] => { attempted := [], written := [], events := [], err := none }
  | i, rel_path :: rest =>
    match pyIndex server_manifest "download_url" with
    | .error e => { attempted := [], written := [], events := [], err := some e }
    | .ok _ =>
      let d := download_file rel_path (env rel_path)
      let evs := d.events.map (fun pe => (batchPercent i total_files pe.1, pe.2))
      let wr : List (String × Bytes) :=
        match d.written with
        | some b => [(rel_path, b)]
        | none => []
      match d.err with
      | some e => { attempted := [rel_path], written := wr, events := evs, err := some e }
      | none =>
        let b := dmfLoop server_manifest env total_files (i + 1) rest
        { attempted := rel_path :: b.attempted, written := wr ++ b.written,
          events := evs ++ b.events, err := b.err }

/-- download_missing_files of src/utils/update_manager.py: returns at once on
an empty list, else downloads the files sequentially with the batch progress
lambda. -/
def download_missing_files (server_manifest : PyValue) (to_download : List String)
    (env : String → DlResponse) : BatchOutcome :=
  if to_download.length = 0 then { attempted := [], written := [], events := [], err := none }
  else dmfLoop server_manifest env to_download.length 1 to_download

/-- Observable result of one SplashScreen.check_for_update pass:
whether the retry-prompt error screen was shown (self.error with its default
error=True), the uncaught exception if the coroutine crashed, whether control
reached the diff stage (the get_missing_or_corrupted_files call), which
downloads were attempted, the destination files written, whether
save_local_manifest ran, the resulting state of the local manifest file, and
whether the client was launched. -/
structure PassResult where
  retryShown : Bool
  crashed : Option PyExc
  reachedDiff : Bool
  downloadsAttempted : List String
  filesWritten : List (String × Bytes)
  manifestSaved : Bool
  finalManifestFile : LocalFile
  launched : Bool

/-- The tail of check_for_update after the fetch and the err-dict check:
load the local manifest, diff, download when needed, save the manifest, and
launch.  Any exception propagates out of the coroutine (there is no
try/except in check_for_update). -/
def checkAfterFetch (sha : Bytes → String) (fs : FileSystem) (localFile : LocalFile)
    (env : String → DlResponse) (server_manifest : PyValue) : PassResult :=
  match load_local_manifest localFile with
  | .error e =>
    { retryShown := false, crashed := some e, reachedDiff := false,
      downloadsAttempted := [], filesWritten := [], manifestSaved := false,
      finalManifestFile := localFile, launched := false }
  | .ok local_manifest =>
    match get_missing_or_corrupted_files sha fs server_manifest local_manifest with
    | .error e =>
      { retryShown := false, crashed := some e, reachedDiff := true,
        downloadsAttempted := [], filesWritten := [], manifestSaved := false,
        finalManifestFile := localFile, launched := false }
    | .ok to_download =>
      if to_download.isEmpty then
        { retryShown := false, crashed := none, reachedDiff := true,
          downloadsAttempted := [], filesWritten := [], manifestSaved := true,
          finalManifestFile := save_local_manifest server_manifest, launched := true }
      else
        let b := download_missing_files server_manifest to_download env
        match b.err with
        | some e =>
          { retryShown := false, crashed := some e, reachedDiff := true,
            downloadsAttempted := b.attempted, filesWritten := b.written,
            manifestSaved := false, finalManifestFile := localFile, launched := false }
        | none =>
          { retryShown := false, crashed := none, reachedDiff := true,
            downloadsAttempted := b.attempted, filesWritten := b.written,
            manifestSaved := true, finalManifestFile := save_local_manifest server_manifest,
            launched := true }

/-- SplashScreen.check_for_update of src/SplashScreen.py: fetch the manifest;
when the result contains "err" and it equals "DNS_ERROR", show the
retry-prompt error screen and return; otherwise fall through to load, diff,
download, save, launch.  Note the source returns early only in the DNS_ERROR
case. -/
def check_for_update (sha : Bytes → String) (parse : String → Option PyValue)
    (net : NetOutcome) (fs : FileSystem) (localFile : LocalFile)
    (env : String → DlResponse) : PassResult :=
  match fetch_manifest parse net with
  | .error e =>
    { retryShown := false, crashed := some e, reachedDiff := false,
      downloadsAttempted := [], filesWritten := [], manifestSaved := false,
      finalManifestFile := localFile, launched := false }
  | .ok server_manifest =>
    match pyContains server_manifest "err" with
    | .error e =>
      { retryShown := false, crashed := some e, reachedDiff := false,
        downloadsAttempted := [], filesWritten := [], manifestSaved := false,
        finalManifestFile := localFile, launched := false }
    | .ok contains =>
      if contains then
        match pyIndex server_manifest "err" with
        | .error e =>
          { retryShown := false, crashed := some e, reachedDiff := false,
            downloadsAttempted := [], filesWritten := [], manifestSaved := false,
            finalManifestFile := localFile, launched := false }
        | .ok v =>
          if pyEqStr "DNS_ERROR" v then
            { retryShown := true, crashed := none, reachedDiff := false,
              downloadsAttempted := [], filesWritten := [], manifestSaved := false,
              finalManifestFile := localFile, launched := false }
          else checkAfterFetch sha fs localFile env server_manifest
      else checkAfterFetch sha fs localFile env server_manifest

/-- The download predicate of claim C1, following the words of the spec: a remote
entry (path, remote_digest) needs downloading exactly when local_dir/path
does not exist or its computed SHA-256 digest differs from remote_digest. -/
def needsDownloadSpec (sha : Bytes → String) (local_dir : FileSystem)
    (p : String × PyValue) : Bool :=
  match alookup local_dir p.1 with
  | none => true
  | some content => !(pyEqStr (sha content) p.2)

/-- The HTTP error message of claim C2, following the words of the spec: the
detail field of the JSON body when the error body is a JSON object (None when the field
is absent), else the raw response text. -/
def httpErrorMessageSpec (parse : String → Option PyValue) (r : HttpResponse) : PyValue :=
  match (if r.jsonCT then parse r.body else none) with
  | some (.pdict d) => (alookup d "detail").getD .pnone
  | some v => .pstr (pyToStr v)
  | none => .pstr r.body

/-- A download response on which download_file raises: non-ok status
(raise_for_status) or a connection drop mid-transfer. -/
def respFails (r : DlResponse) : Bool :=
  !httpOk r.status || r.drop

/-- Cumulative byte counts after each chunk, starting from a given count:
the successive values of `downloaded` in the download_file loop. -/
def cumBytes (downloaded : Nat) : List Nat → List Nat
  | [] => []
  | n :: rest => (downloaded + n) :: cumBytes (downloaded + n) rest

/-- Concrete download response used by witnesses: ok status, Content-Length
4, two chunks of 3 and 1 bytes, no drop. -/
def wResp4 : DlResponse :=
  { status := 200, contentLength := some 4, chunks := [[1, 2, 3], [4]], drop := false }

/-- Concrete one-entry server manifest dict used by witnesses. -/
def wManifest : PyValue :=
  .pdict [("download_url", .pstr "u")]

/-- Concrete download response used by the C5 counterexample: ok status,
Content-Length 100, a single chunk of 29 bytes, no drop. -/
def wResp29 : DlResponse :=
  { status := 200, contentLength := some 100, chunks := [List.replicate 29 0], drop := false }

/-- The diff loop over the remote entries returns exactly the entries flagged
by the download predicate, in iteration order, whenever the local manifest is
a dict with a files dict (values of which the loop never consults). -/
theorem gmocLoop_eq_filter (sha : Bytes → String) (local_dir : FileSystem)
    (l : List (String × PyValue)) (lfd : List (String × PyValue))
    (hl : alookup l "files" = some (.pdict lfd)) :
    ∀ items, gmocLoop sha local_dir (.pdict l) items
      = .ok ((items.filter (needsDownloadSpec sha local_dir)).map Prod.fst)
  | [] => rfl
  | (rel_path, server_hash) :: rest => by
    have ih := gmocLoop_eq_filter sha local_dir l lfd hl rest
    simp only [gmocLoop, pyIndex, hl, pyGet, sha256_file, ih, List.filter_cons]
    have hpred : needsDownloadSpec sha local_dir (rel_path, server_hash)
        = match alookup local_dir rel_path with
          | none => true
          | some content => !(pyEqStr (sha content) server_hash) := rfl
    cases hb : needsDownloadSpec sha local_dir (rel_path, server_hash) <;>
      rw [hpred] at hb <;> simp only [hb] <;> simp

/-- C1.  Diff correctness: with a remote manifest whose files map is fd and a
well-formed local manifest, get_missing_or_corrupted_files returns exactly
the paths of the remote entries whose local file is missing or hashes
differently, in the iteration order of the manifest; every returned path is a
remote path (no purely-local file is flagged), and when every remote file
exists locally with a matching digest the result is empty. -/
theorem c1_diff_correct (sha : Bytes → String) (local_dir : FileSystem)
    (d fd l lfd : List (String × PyValue))
    (hs : alookup d "files" = some (.pdict fd))
    (hl : alookup l "files" = some (.pdict lfd)) :
    get_missing_or_corrupted_files sha local_dir (.pdict d) (.pdict l)
      = .ok ((fd.filter (needsDownloadSpec sha local_dir)).map Prod.fst)
    ∧ (∀ rel ∈ (fd.filter (needsDownloadSpec sha local_dir)).map Prod.fst,
        rel ∈ fd.map Prod.fst)
    ∧ ((∀ p ∈ fd, ∃ content, alookup local_dir p.1 = some content ∧
          pyEqStr (sha content) p.2 = true) →
        get_missing_or_corrupted_files sha local_dir (.pdict d) (.pdict l) = .ok []) := by
  have hmain : get_missing_or_corrupted_files sha local_dir (.pdict d) (.pdict l)
      = .ok ((fd.filter (needsDownloadSpec sha local_dir)).map Prod.fst) := by
    simp only [get_missing_or_corrupted_files, pyIndex, hs, pyItems]
    exact gmocLoop_eq_filter sha local_dir l lfd hl fd
  refine ⟨hmain, ?_, ?_⟩
  · intro rel hrel
    simp only [List.mem_map, List.mem_filter] at hrel ⊢
    obtain ⟨p, ⟨hp, _⟩, hrel⟩ := hrel
    exact ⟨p, hp, hrel⟩
  · intro hall
    rw [hmain]
    have : fd.filter (needsDownloadSpec sha local_dir) = [] := by
      rw [List.filter_eq_nil_iff]
      intro p hp
      obtain ⟨content, hc, hhash⟩ := hall p hp
      simp [needsDownloadSpec, hc, hhash]
    rw [this, List.map_nil]

/-- Witness for C1 at a concrete input: remote files a.bin and b.bin, local
directory holding a matching a.bin only, so exactly b.bin is flagged. -/
theorem c1_diff_correct_witness :
    alookup [("files", PyValue.pdict [("a.bin", PyValue.pstr "ha"), ("b.bin", PyValue.pstr "hb")])]
      "files" = some (.pdict [("a.bin", PyValue.pstr "ha"), ("b.bin", PyValue.pstr "hb")])
    ∧ get_missing_or_corrupted_files (fun b => if b = [0] then "ha" else "hb")
        [("a.bin", [0])]
        (.pdict [("files", .pdict [("a.bin", PyValue.pstr "ha"), ("b.bin", PyValue.pstr "hb")])])
        (.pdict [("files", .pdict [])])
      = .ok ((([("a.bin", PyValue.pstr "ha"), ("b.bin", PyValue.pstr "hb")]).filter
          (needsDownloadSpec (fun b => if b = [0] then "ha" else "hb") [("a.bin", [0])])).map
            Prod.fst) := by
  refine ⟨rfl, ?_⟩
  exact (c1_diff_correct (fun b => if b = [0] then "ha" else "hb") [("a.bin", [0])]
    [("files", PyValue.pdict [("a.bin", PyValue.pstr "ha"), ("b.bin", PyValue.pstr "hb")])]
    [("a.bin", PyValue.pstr "ha"), ("b.bin", PyValue.pstr "hb")]
    [("files", PyValue.pdict [])] [] rfl rfl).1

/-- C9.  Diff independence from the local manifest: for any two local
manifests that are dicts carrying a files dict, the diff result is the same
list (and the same exception behaviour), whatever the stored hash values
are: the loop binds the local hash and never consults it. -/
theorem c9_diff_ignores_local_manifest (sha : Bytes → String) (local_dir : FileSystem)
    (server_manifest : PyValue) (l1 l2 lfd1 lfd2 : List (String × PyValue))
    (h1 : alookup l1 "files" = some (.pdict lfd1))
    (h2 : alookup l2 "files" = some (.pdict lfd2)) :
    get_missing_or_corrupted_files sha local_dir server_manifest (.pdict l1)
      = get_missing_or_corrupted_files sha local_dir server_manifest (.pdict l2) := by
  unfold get_missing_or_corrupted_files
  cases hfs : pyIndex server_manifest "files" with
  | error e => rfl
  | ok sfiles =>
    cases hitems : pyItems sfiles with
    | error e => simp only [hitems]
    | ok items =>
      simp only [hitems]
      rw [gmocLoop_eq_filter sha local_dir l1 lfd1 h1 items,
        gmocLoop_eq_filter sha local_dir l2 lfd2 h2 items]

/-- Witness for C9 at a concrete input: two local manifests with different
stored hashes for a.bin produce the same diff result. -/
theorem c9_diff_ignores_local_manifest_witness :
    alookup [("files", PyValue.pdict [("a.bin", PyValue.pstr "stale")])] "files"
      = some (.pdict [("a.bin", PyValue.pstr "stale")])
    ∧ get_missing_or_corrupted_files (fun _ => "ha") [("a.bin", [0])]
        (.pdict [("files", .pdict [("a.bin", PyValue.pstr "ha")])])
        (.pdict [("files", .pdict [("a.bin", PyValue.pstr "stale")])])
      = get_missing_or_corrupted_files (fun _ => "ha") [("a.bin", [0])]
        (.pdict [("files", .pdict [("a.bin", PyValue.pstr "ha")])])
        (.pdict [("files", .pdict [])]) := by
  refine ⟨rfl, ?_⟩
  exact c9_diff_ignores_local_manifest (fun _ => "ha") [("a.bin", [0])]
    (.pdict [("files", .pdict [("a.bin", PyValue.pstr "ha")])])
    [("files", PyValue.pdict [("a.bin", PyValue.pstr "stale")])]
    [("files", PyValue.pdict [])]
    [("a.bin", PyValue.pstr "stale")] [] rfl rfl

/-- C3 counterexample: on a file holding invalid JSON, load_local_manifest
raises json.JSONDecodeError instead of returning the default empty manifest,
so corrupt local state is not tolerated as the claim states. -/
theorem c3_counterexample :
    load_local_manifest (.invalid "not json") = .error .jsonDecodeError
    ∧ load_local_manifest (.invalid "not json") ≠ .ok (.pdict [("files", .pdict [])]) :=
  ⟨rfl, fun h => Except.noConfusion h⟩

/-- C3 amended: load_local_manifest returns the default empty manifest when
the file is absent; when the file exists but does not parse as valid JSON,
the json.JSONDecodeError propagates to the caller (load fails). -/
theorem c3_amended (s : String) :
    load_local_manifest .absent = .ok (.pdict [("files", .pdict [])])
    ∧ load_local_manifest (.invalid s) = .error .jsonDecodeError :=
  ⟨rfl, rfl⟩

/-- C2 counterexample: a transport-level failure that is neither a DNS error
nor an HTTP status error (here: a refused connection) is not turned into a
typed outcome by fetch_manifest; the exception propagates to the caller,
contradicting the claim that no transport failure crashes the caller. -/
theorem c2_counterexample :
    fetch_manifest (fun _ => none) (.otherConnError "connection refused")
      = .error (.clientError "connection refused")
    ∧ ∀ v, fetch_manifest (fun _ => none) (.otherConnError "connection refused")
        ≠ .ok v :=
  ⟨rfl, fun _ h => Except.noConfusion h⟩

/-- C2 amended: fetch_manifest returns a typed outcome for a DNS failure
(err DNS_ERROR) and for a non-2xx response whose error body is decodable
(err with the status and the message taken from the JSON detail field when
the body is a JSON object, else the raw response text); any other
transport-level failure propagates as an exception, as does a JSON-decode
failure of an error body served with a JSON content type. -/
theorem c2_amended (parse : String → Option PyValue) (net : NetOutcome) :
    (net = .dnsError →
      fetch_manifest parse net = .ok (.pdict [("err", .pstr "DNS_ERROR")]))
    ∧ (∀ r : HttpResponse, net = .gotResponse r → httpOk r.status = false →
        (r.jsonCT = true → (parse r.body).isSome) →
        fetch_manifest parse net = .ok (.pdict [("err",
          .pstr (clientResponseErrorStr r.status (httpErrorMessageSpec parse r)))]))
    ∧ (∀ r : HttpResponse, net = .gotResponse r → httpOk r.status = false →
        r.jsonCT = true → parse r.body = none →
        fetch_manifest parse net = .error .jsonDecodeError)
    ∧ (∀ s, net = .otherConnError s →
        fetch_manifest parse net = .error (.clientError s)) := by
  refine ⟨?_, ?_, ?_, ?_⟩
  · rintro rfl; rfl
  · rintro r rfl hnok hparse
    simp only [fetch_manifest, Requests_request, hnok, Bool.false_eq_true,
      if_false, response_json, httpErrorMessageSpec]
    cases hct : r.jsonCT with
    | false => simp [pyToStr]
    | true =>
      simp only [if_true]
      cases hp : parse r.body with
      | none => rw [hct] at hparse; rw [hp] at hparse; simp at hparse
      | some v => cases v <;> rfl
  · rintro r rfl hnok hct hp
    simp only [fetch_manifest, Requests_request, hnok, Bool.false_eq_true,
      if_false, response_json, hct, if_true, hp]
  · rintro s rfl; rfl

/-- Witness for C2 amended at a concrete input: a 500 response with a JSON
error body carrying a detail field yields the typed err outcome. -/
theorem c2_amended_witness :
    httpOk 500 = false
    ∧ fetch_manifest
        (fun s => if s = "B" then some (.pdict [("detail", .pstr "boom")]) else none)
        (.gotResponse { status := 500, jsonCT := true, body := "B" })
      = .ok (.pdict [("err", .pstr (clientResponseErrorStr 500
          (httpErrorMessageSpec
            (fun s => if s = "B" then some (.pdict [("detail", .pstr "boom")]) else none)
            { status := 500, jsonCT := true, body := "B" })))]) := by
  refine ⟨by decide, ?_⟩
  exact (c2_amended
    (fun s => if s = "B" then some (.pdict [("detail", .pstr "boom")]) else none)
    (.gotResponse { status := 500, jsonCT := true, body := "B" })).2.1
    { status := 500, jsonCT := true, body := "B" } rfl (by decide) (fun _ => by decide)

/-- C4, evaluating the code at the failing input: after fetch_manifest
returns the err dict for a 404 (an HttpError outcome), check_for_update does
not show the retry-prompt error state; it falls through the DNS_ERROR-only
check into the diff stage, where indexing the err dict with "files" raises
KeyError and the coroutine crashes.  The manifest is not saved and nothing is
downloaded, but the claimed retry-prompt Error state is never presented and
the Diffing stage is reached. -/
theorem c4_http_error_crashes_pass :
    check_for_update (fun _ => "")
      (fun s => if s = "B" then some (.pdict [("detail", .pstr "Not Found")]) else none)
      (.gotResponse { status := 404, jsonCT := true, body := "B" })
      [] .absent
      (fun _ => { status := 200, contentLength := none, chunks := [], drop := false })
      = { retryShown := false, crashed := some (.keyError "files"), reachedDiff := true,
          downloadsAttempted := [], filesWritten := [], manifestSaved := false,
          finalManifestFile := .absent, launched := false } := by
  rfl

/-- A response on which respFails holds makes download_file raise. -/
theorem download_file_err_of_respFails (rel_path : String) (r : DlResponse)
    (h : respFails r = true) : (download_file rel_path r).err.isSome = true := by
  unfold download_file
  unfold respFails at h
  cases hok : httpOk r.status with
  | false => simp [hok]
  | true =>
    rw [hok] at h
    simp only [Bool.not_true, Bool.false_or] at h
    simp [hok, h]

/-- A response on which respFails does not hold makes download_file return
without an exception. -/
theorem download_file_ok_of_not_respFails (rel_path : String) (r : DlResponse)
    (h : respFails r = false) : (download_file rel_path r).err = none := by
  unfold download_file
  unfold respFails at h
  cases hok : httpOk r.status with
  | false => rw [hok] at h; simp at h
  | true =>
    rw [hok] at h
    simp only [Bool.not_true, Bool.false_or] at h
    simp [hok, h]

/-- When the j-th file of the batch is the first whose response fails, the
download loop raises and the attempted files are exactly the first j+1: the
files after the failing one are never downloaded. -/
theorem dmfLoop_fail_prefix (sm : PyValue) (env : String → DlResponse) (N : Nat)
    (u : PyValue) (hu : pyIndex sm "download_url" = .ok u) :
    ∀ (paths : List String) (i j : Nat) (hj : j < paths.length),
      respFails (env (paths.get ⟨j, hj⟩)) = true →
      (∀ k (hk : k < j), respFails (env (paths.get ⟨k, Nat.lt_trans hk hj⟩)) = false) →
      (dmfLoop sm env N i paths).err.isSome = true
      ∧ (dmfLoop sm env N i paths).attempted = paths.take (j + 1)
  | [], _, j, hj => by simp at hj
  | rel_path :: rest, i, 0, hj => by
    intro hfail _
    simp only [List.get] at hfail
    have herr := download_file_err_of_respFails rel_path (env rel_path) hfail
    cases he : (download_file rel_path (env rel_path)).err with
    | none => rw [he] at herr; simp at herr
    | some e =>
      simp only [dmfLoop, hu, he]
      exact ⟨rfl, rfl⟩
  | rel_path :: rest, i, j + 1, hj => by
    intro hfail hbefore
    have hhead : respFails (env rel_path) = false := by
      have := hbefore 0 (Nat.succ_pos j)
      simpa using this
    have hok := download_file_ok_of_not_respFails rel_path (env rel_path) hhead
    have hj' : j < rest.length := Nat.lt_of_succ_lt_succ hj
    have hfail' : respFails (env (rest.get ⟨j, hj'⟩)) = true := by
      simpa using hfail
    have hbefore' : ∀ k (hk : k < j),
        respFails (env (rest.get ⟨k, Nat.lt_trans hk hj'⟩)) = false := by
      intro k hk
      have := hbefore (k + 1) (Nat.succ_lt_succ hk)
      simpa using this
    have ih := dmfLoop_fail_prefix sm env N u hu rest (i + 1) j hj' hfail' hbefore'
    simp only [dmfLoop, hu, hok]
    exact ⟨ih.1, by simp [ih.2]⟩

/-- C7.  Fail-fast batch atomicity: in a pass whose fetch succeeded with a
well-formed manifest and whose diff produced the batch to_download, if the
j-th file of the batch is the first whose download fails (non-2xx status or
connection drop), then the files after it are never attempted (the attempted
list is exactly the first j+1 entries), the local manifest file is left
exactly as it was before the pass, no manifest write occurs, and the client
is not launched. -/
theorem c7_fail_fast_batch (sha : Bytes → String) (parse : String → Option PyValue)
    (net : NetOutcome) (fs : FileSystem) (localFile : LocalFile)
    (env : String → DlResponse) (d : List (String × PyValue)) (u lm : PyValue)
    (to_download : List String) (j : Nat)
    (hfetch : fetch_manifest parse net = .ok (.pdict d))
    (herr : alookup d "err" = none)
    (hurl : alookup d "download_url" = some u)
    (hload : load_local_manifest localFile = .ok lm)
    (hdiff : get_missing_or_corrupted_files sha fs (.pdict d) lm = .ok to_download)
    (hj : j < to_download.length)
    (hfail : respFails (env (to_download.get ⟨j, hj⟩)) = true)
    (hbefore : ∀ k (hk : k < j),
      respFails (env (to_download.get ⟨k, Nat.lt_trans hk hj⟩)) = false) :
    (check_for_update sha parse net fs localFile env).manifestSaved = false
    ∧ (check_for_update sha parse net fs localFile env).finalManifestFile = localFile
    ∧ (check_for_update sha parse net fs localFile env).downloadsAttempted
        = to_download.take (j + 1)
    ∧ (check_for_update sha parse net fs localFile env).launched = false := by
  have hu : pyIndex (.pdict d) "download_url" = .ok u := by
    simp [pyIndex, hurl]
  have hne : to_download.length ≠ 0 := by
    intro h0
    rw [h0] at hj
    exact Nat.not_lt_zero j hj
  have hloop := dmfLoop_fail_prefix (.pdict d) env to_download.length u hu
    to_download 1 j hj hfail hbefore
  have hempty : to_download.isEmpty = false := by
    cases to_download with
    | nil => simp at hne
    | cons a l => rfl
  have hbatch : download_missing_files (.pdict d) to_download env
      = dmfLoop (.pdict d) env to_download.length 1 to_download := by
    simp [download_missing_files, hne]
  unfold check_for_update
  rw [hfetch]
  simp only [pyContains, herr, Option.isSome_none, if_false, Bool.false_eq_true]
  unfold checkAfterFetch
  rw [hload]
  simp only []
  rw [hdiff]
  simp only [hempty, Bool.false_eq_true, if_false]
  rw [hbatch]
  cases he : (dmfLoop (.pdict d) env to_download.length 1 to_download).err with
  | none => rw [he] at hloop; simp at hloop
  | some e =>
    simp only []
    rw [← hloop.2]
    simp

/-- Witness for C7 at a concrete input: a two-file batch in which the first
download succeeds and the second returns a 500 status; the pass attempts
exactly the two files up to the failure, writes no manifest, and leaves the
local manifest file absent as before. -/
theorem c7_fail_fast_batch_witness :
    respFails ((fun p => if p = "a" then
        { status := 200, contentLength := some 1, chunks := [[7]], drop := false }
      else
        { status := 500, contentLength := none, chunks := [], drop := false : DlResponse }) "b")
      = true
    ∧ (check_for_update (fun _ => "h0")
        (fun s => if s = "M" then some (.pdict [("download_url", .pstr "u"),
          ("files", .pdict [("a", .pstr "ha"), ("b", .pstr "hb")])]) else none)
        (.gotResponse { status := 200, jsonCT := true, body := "M" }) [] .absent
        (fun p => if p = "a" then
          { status := 200, contentLength := some 1, chunks := [[7]], drop := false }
        else
          { status := 500, contentLength := none, chunks := [], drop := false })).manifestSaved
      = false
    ∧ (check_for_update (fun _ => "h0")
        (fun s => if s = "M" then some (.pdict [("download_url", .pstr "u"),
          ("files", .pdict [("a", .pstr "ha"), ("b", .pstr "hb")])]) else none)
        (.gotResponse { status := 200, jsonCT := true, body := "M" }) [] .absent
        (fun p => if p = "a" then
          { status := 200, contentLength := some 1, chunks := [[7]], drop := false }
        else
          { status := 500, contentLength := none, chunks := [], drop := false })).downloadsAttempted
      = List.take (1 + 1) ["a", "b"] := by
  have h := c7_fail_fast_batch (fun _ => "h0")
    (fun s => if s = "M" then some (.pdict [("download_url", .pstr "u"),
      ("files", .pdict [("a", .pstr "ha"), ("b", .pstr "hb")])]) else none)
    (.gotResponse { status := 200, jsonCT := true, body := "M" }) [] .absent
    (fun p => if p = "a" then
      { status := 200, contentLength := some 1, chunks := [[7]], drop := false }
    else
      { status := 500, contentLength := none, chunks := [], drop := false })
    [("download_url", .pstr "u"), ("files", .pdict [("a", .pstr "ha"), ("b", .pstr "hb")])]
    (.pstr "u") (.pdict [("files", .pdict [])]) ["a", "b"] 1
    rfl rfl rfl rfl rfl (by decide) rfl
    (by
      intro k hk
      have hk0 : k = 0 := Nat.lt_one_iff.mp hk
      subst hk0
      rfl)
  exact ⟨rfl, h.1, h.2.2.1⟩

/-- With a zero total, the download loop writes all chunks and fires no
progress event. -/
theorem dfLoop_total_zero (rel_path : String) :
    ∀ (chunks : List Bytes) (downloaded : Nat),
      dfLoop 0 rel_path downloaded chunks = (chunks.flatten, [])
  | [], _ => rfl
  | c :: rest, downloaded => by
    simp only [dfLoop, dfLoop_total_zero rel_path rest (downloaded + c.length),
      ne_eq, not_true_eq_false, if_false, List.flatten_cons, List.nil_append]

/-- C10.  A declared Content-Length of 0 suppresses progress: on an ok status
with a declared Content-Length header of value 0, download_file still writes
the (here empty) body to the destination file but fires no progress events,
and the outcome is identical to that of the same response with no
Content-Length header at all, because the declared total is converted with
int() and tested for truthiness. -/
theorem c10_zero_content_length (rel_path : String) (r : DlResponse)
    (hok : httpOk r.status = true) (hcl : r.contentLength = some 0) :
    (download_file rel_path r).events = []
    ∧ (download_file rel_path r).written = some r.chunks.flatten
    ∧ download_file rel_path r
        = download_file rel_path
            { status := r.status, contentLength := none, chunks := r.chunks, drop := r.drop } := by
  have hred : download_file rel_path r
      = { written := some r.chunks.flatten, events := [],
          err := if r.drop then some (.clientError "connection lost") else none } := by
    unfold download_file
    rw [hok, hcl]
    simp only [not_true_eq_false, if_false, Option.getD_some, dfLoop_total_zero]
  have hred' : download_file rel_path
      { status := r.status, contentLength := none, chunks := r.chunks, drop := r.drop }
      = { written := some r.chunks.flatten, events := [],
          err := if r.drop then some (.clientError "connection lost") else none } := by
    unfold download_file
    rw [hok]
    simp only [not_true_eq_false, if_false, Option.getD_none, dfLoop_total_zero]
  rw [hred, hred']
  exact ⟨rfl, rfl, rfl⟩

/-- Witness for C10 at a concrete input: an ok response declaring
Content-Length 0 with an empty body writes the empty file and fires no
events. -/
theorem c10_zero_content_length_witness :
    httpOk 200 = true
    ∧ ({ status := 200, contentLength := some 0, chunks := [], drop := false }
        : DlResponse).contentLength = some 0
    ∧ (download_file "a.bin"
        { status := 200, contentLength := some 0, chunks := [], drop := false }).events = []
    ∧ (download_file "a.bin"
        { status := 200, contentLength := some 0, chunks := [], drop := false }).written
      = some (List.flatten ([] : List Bytes)) := by
  have h := c10_zero_content_length "a.bin"
    { status := 200, contentLength := some 0, chunks := [], drop := false } rfl rfl
  exact ⟨rfl, rfl, h.1, h.2.1⟩

/-- On nonnegative rationals, Python int() truncation is the floor. -/
theorem pyInt_eq_floor (q : ℚ) (h : 0 ≤ q) : pyInt q = ⌊q⌋ := by
  unfold pyInt
  exact if_pos h

/-- Python int() of a nonnegative rational is nonnegative. -/
theorem pyInt_nonneg (q : ℚ) (h : 0 ≤ q) : 0 ≤ pyInt q := by
  rw [pyInt_eq_floor q h]
  exact Int.floor_nonneg.mpr h

/-- Python int() truncation is monotone on nonnegative values. -/
theorem pyInt_mono (q q' : ℚ) (h0 : 0 ≤ q) (hle : q ≤ q') : pyInt q ≤ pyInt q' := by
  rw [pyInt_eq_floor q h0, pyInt_eq_floor q' (le_trans h0 hle)]
  exact Int.floor_le_floor hle

/-- Division by a nonnegative rational is monotone in the numerator (a zero
divisor sends both sides to zero). -/
theorem div_mono_of_nonneg (y y' d : ℚ) (hle : y ≤ y') (hd : 0 ≤ d) :
    y / d ≤ y' / d := by
  rcases eq_or_lt_of_le hd with h0 | h0
  · rw [← h0, div_zero, div_zero]
  · exact (div_le_div_iff_of_pos_right h0).mpr hle

theorem roundEven_intCast (n : Int) : roundEven (n : ℚ) = n := by
  unfold roundEven
  norm_num

theorem roundEven_eq_of_lt_half (x : ℚ) (f : Int) (h1 : (f : ℚ) ≤ x)
    (h2 : x - f < 1 / 2) : roundEven x = f := by
  have hf : ⌊x⌋ = f := by
    rw [Int.floor_eq_iff]
    exact ⟨h1, by linarith⟩
  unfold roundEven
  rw [hf]
  rw [if_pos h2]

theorem roundEven_eq_of_half_lt (x : ℚ) (f : Int) (h1 : (f : ℚ) ≤ x)
    (h2 : 1 / 2 < x - f) (h3 : x < (f : ℚ) + 1) : roundEven x = f + 1 := by
  have hf : ⌊x⌋ = f := by
    rw [Int.floor_eq_iff]
    exact ⟨h1, by linarith⟩
  unfold roundEven
  rw [hf, if_neg (by linarith), if_pos h2]

theorem roundEven_ge_floor (x : ℚ) : ⌊x⌋ ≤ roundEven x := by
  unfold roundEven
  split_ifs <;> omega

theorem roundEven_le_floor_add_one (x : ℚ) : roundEven x ≤ ⌊x⌋ + 1 := by
  unfold roundEven
  split_ifs <;> omega

theorem roundEven_mono (x y : ℚ) (h : x ≤ y) : roundEven x ≤ roundEven y := by
  have hf : ⌊x⌋ ≤ ⌊y⌋ := Int.floor_le_floor h
  rcases lt_or_eq_of_le hf with hlt | heq
  · calc roundEven x ≤ ⌊x⌋ + 1 := roundEven_le_floor_add_one x
    _ ≤ ⌊y⌋ := by omega
    _ ≤ roundEven y := roundEven_ge_floor y
  · have hx1 : (⌊x⌋ : ℚ) ≤ x := Int.floor_le x
    have hy1 : (⌊y⌋ : ℚ) ≤ y := Int.floor_le y
    have hry : x - ⌊x⌋ ≤ y - ⌊y⌋ := by
      rw [← heq]
      linarith
    unfold roundEven
    rw [← heq]
    split_ifs with a1 a2 b1 b2 b3 c1 c2 c3 c4 <;> try omega
    all_goals (exfalso; try linarith)

theorem roundEven_nonneg (x : ℚ) (h : 0 ≤ x) : 0 ≤ roundEven x := by
  have := roundEven_mono 0 x h
  rw [show (0 : ℚ) = ((0 : Int) : ℚ) by norm_num, roundEven_intCast] at this
  exact this

theorem two_zpow_natCast (n : Nat) : (2 : ℚ) ^ (n : Int) = ((2 ^ n : Nat) : ℚ) := by
  rw [zpow_natCast]
  push_cast
  ring

theorem ilog2q_spec (q : ℚ) (hq : 0 < q) :
    (2 : ℚ) ^ ilog2q q ≤ q ∧ q < 2 ^ (ilog2q q + 1) := by
  have hnum : 0 < q.num := Rat.num_pos.mpr hq
  have ha' : ((q.num.toNat : Int)) = q.num := Int.toNat_of_nonneg hnum.le
  have ha0 : q.num.toNat ≠ 0 := by omega
  have hden : 0 < (q.den : ℚ) := by exact_mod_cast q.pos
  have hqeq : q = ((q.num.toNat : ℚ)) / ((q.den : ℚ)) := by
    rw [show ((q.num.toNat : ℚ)) = ((q.num : ℚ)) by exact_mod_cast ha']
    rw [Rat.num_div_den]
  set a := q.num.toNat with hadef
  set b := q.den with hbdef
  set la := Nat.log2 a with hladef
  set lb := Nat.log2 b with hlbdef
  have hla1 : (2 : ℕ) ^ la ≤ a := Nat.log2_self_le ha0
  have hla2 : a < 2 ^ (la + 1) := Nat.lt_log2_self
  have hlb1 : (2 : ℕ) ^ lb ≤ b := Nat.log2_self_le (by positivity)
  have hlb2 : b < 2 ^ (lb + 1) := Nat.lt_log2_self
  set n0 : Int := (la : Int) - (lb : Int) with hn0def
  -- upper: q < 2 ^ (n0 + 1)
  have hupper : q < 2 ^ (n0 + 1) := by
    rw [hqeq, div_lt_iff hden]
    have h1 : ((a : ℚ)) < (2 : ℚ) ^ ((la : Int) + 1) := by
      rw [show ((la : Int) + 1) = (((la + 1 : ℕ)) : Int) by push_cast; ring,
        two_zpow_natCast]
      exact_mod_cast hla2
    have h2 : (2 : ℚ) ^ ((la : Int) + 1) ≤ 2 ^ (n0 + 1) * (b : ℚ) := by
      have hb' : ((2 ^ lb : ℕ) : ℚ) ≤ (b : ℚ) := by exact_mod_cast hlb1
      rw [← two_zpow_natCast] at hb'
      calc (2 : ℚ) ^ ((la : Int) + 1) = 2 ^ (n0 + 1) * 2 ^ ((lb : Int)) := by
            rw [← zpow_add₀ (by norm_num : (2 : ℚ) ≠ 0)]
            congr 1
            omega
      _ ≤ 2 ^ (n0 + 1) * (b : ℚ) := by
            apply mul_le_mul_of_nonneg_left hb'
            positivity
    linarith
  -- lower: 2 ^ (n0 - 1) < q
  have hlower : (2 : ℚ) ^ (n0 - 1) < q := by
    rw [hqeq, lt_div_iff hden]
    have h1 : (2 : ℚ) ^ (n0 - 1) * (b : ℚ) < 2 ^ ((la : Int)) := by
      have hb' : (b : ℚ) < ((2 ^ (lb + 1) : ℕ) : ℚ) := by exact_mod_cast hlb2
      rw [← two_zpow_natCast] at hb'
      calc (2 : ℚ) ^ (n0 - 1) * (b : ℚ) < 2 ^ (n0 - 1) * 2 ^ (((lb + 1 : ℕ)) : Int) := by
            apply mul_lt_mul_of_pos_left hb'
            positivity
      _ = 2 ^ ((la : Int)) := by
            rw [← zpow_add₀ (by norm_num : (2 : ℚ) ≠ 0)]
            congr 1
            push_cast
            omega
    have h2 : (2 : ℚ) ^ ((la : Int)) ≤ (a : ℚ) := by
      rw [two_zpow_natCast]
      exact_mod_cast hla1
    linarith
  -- assemble according to the branch taken
  unfold ilog2q
  rw [← hadef, ← hbdef, ← hladef, ← hlbdef, ← hn0def]
  by_cases hbr : q < 2 ^ n0
  · rw [if_pos hbr]
    constructor
    · have : (2 : ℚ) ^ (n0 - 1) ≤ q := le_of_lt hlower
      simpa using this
    · simpa using hbr
  · rw [if_neg hbr]
    exact ⟨le_of_not_lt hbr, hupper⟩

theorem ilog2q_eq (q : ℚ) (e : Int) (hq : 0 < q) (hl : (2 : ℚ) ^ e ≤ q)
    (hu : q < 2 ^ (e + 1)) : ilog2q q = e := by
  obtain ⟨h1, h2⟩ := ilog2q_spec q hq
  by_contra hne
  rcases lt_or_gt_of_ne hne with h | h
  · have : (2 : ℚ) ^ (ilog2q q + 1) ≤ 2 ^ e :=
      zpow_le_zpow_right₀ (by norm_num) (by omega)
    linarith
  · have : (2 : ℚ) ^ (e + 1) ≤ 2 ^ ilog2q q :=
      zpow_le_zpow_right₀ (by norm_num) (by omega)
    linarith

theorem fl_zero : fl 0 = 0 := by
  unfold fl
  norm_num

theorem flPos_nonneg (q : ℚ) (h : 0 ≤ q) : 0 ≤ flPos q := by
  unfold flPos
  have h1 : (0 : ℚ) ≤ (roundEven (q * 2 ^ (52 - ilog2q q)) : ℚ) := by
    exact_mod_cast roundEven_nonneg _ (by positivity)
  positivity

theorem fl_nonneg (q : ℚ) (h : 0 ≤ q) : 0 ≤ fl q := by
  unfold fl
  rcases eq_or_lt_of_le h with h0 | h0
  · rw [← h0]
    norm_num
  · rw [if_neg (not_lt.mpr h), if_neg (ne_of_gt h0)]
    exact flPos_nonneg q h

theorem flPos_upper (q : ℚ) (hq : 0 < q) : flPos q ≤ (2 : ℚ) ^ (ilog2q q + 1) := by
  obtain ⟨h1, h2⟩ := ilog2q_spec q hq
  unfold flPos
  set e := ilog2q q with he
  have hscale : (0 : ℚ) < 2 ^ (52 - e) := by positivity
  have hm : q * 2 ^ (52 - e) ≤ ((2 ^ 53 : Int) : ℚ) := by
    have : q * 2 ^ (52 - e) < 2 ^ (e + 1) * 2 ^ (52 - e) :=
      mul_lt_mul_of_pos_right h2 hscale
    have hid : (2 : ℚ) ^ (e + 1) * 2 ^ (52 - e) = ((2 ^ 53 : Int) : ℚ) := by
      rw [← zpow_add₀ (by norm_num : (2 : ℚ) ≠ 0)]
      rw [show e + 1 + (52 - e) = (53 : Int) by omega]
      norm_num
    linarith [hid ▸ this]
  have hre : roundEven (q * 2 ^ (52 - e)) ≤ 2 ^ 53 := by
    have := roundEven_mono _ _ hm
    rwa [roundEven_intCast] at this
  calc (roundEven (q * 2 ^ (52 - e)) : ℚ) * 2 ^ (e - 52)
      ≤ ((2 ^ 53 : Int) : ℚ) * 2 ^ (e - 52) := by
        apply mul_le_mul_of_nonneg_right _ (by positivity)
        exact_mod_cast hre
  _ = 2 ^ (e + 1) := by
        rw [show ((2 ^ 53 : Int) : ℚ) = (2 : ℚ) ^ (53 : Int) by norm_num]
        rw [← zpow_add₀ (by norm_num : (2 : ℚ) ≠ 0)]
        congr 1
        omega

theorem flPos_lower (q : ℚ) (hq : 0 < q) : (2 : ℚ) ^ ilog2q q ≤ flPos q := by
  obtain ⟨h1, h2⟩ := ilog2q_spec q hq
  unfold flPos
  set e := ilog2q q with he
  have hscale : (0 : ℚ) < 2 ^ (52 - e) := by positivity
  have hm : ((2 ^ 52 : Int) : ℚ) ≤ q * 2 ^ (52 - e) := by
    have : (2 : ℚ) ^ e * 2 ^ (52 - e) ≤ q * 2 ^ (52 - e) :=
      mul_le_mul_of_nonneg_right h1 hscale.le
    have hid : (2 : ℚ) ^ e * 2 ^ (52 - e) = ((2 ^ 52 : Int) : ℚ) := by
      rw [← zpow_add₀ (by norm_num : (2 : ℚ) ≠ 0)]
      rw [show e + (52 - e) = (52 : Int) by omega]
      norm_num
    linarith [hid ▸ this]
  have hre : (2 ^ 52 : Int) ≤ roundEven (q * 2 ^ (52 - e)) := by
    have := roundEven_mono _ _ hm
    rwa [roundEven_intCast] at this
  calc (2 : ℚ) ^ e = ((2 ^ 52 : Int) : ℚ) * 2 ^ (e - 52) := by
        rw [show ((2 ^ 52 : Int) : ℚ) = (2 : ℚ) ^ (52 : Int) by norm_num]
        rw [← zpow_add₀ (by norm_num : (2 : ℚ) ≠ 0)]
        congr 1
        omega
  _ ≤ (roundEven (q * 2 ^ (52 - e)) : ℚ) * 2 ^ (e - 52) := by
        apply mul_le_mul_of_nonneg_right _ (by positivity)
        exact_mod_cast hre

theorem fl_mono (q q' : ℚ) (h0 : 0 ≤ q) (hle : q ≤ q') : fl q ≤ fl q' := by
  rcases eq_or_lt_of_le h0 with hq0 | hq0
  · rw [← hq0, fl_zero]
    exact fl_nonneg q' (le_trans h0 hle)
  · have hq'0 : 0 < q' := lt_of_lt_of_le hq0 hle
    unfold fl
    rw [if_neg (not_lt.mpr hq0.le), if_neg (ne_of_gt hq0),
      if_neg (not_lt.mpr hq'0.le), if_neg (ne_of_gt hq'0)]
    have he : ilog2q q ≤ ilog2q q' := by
      by_contra h
      push_neg at h
      have h1 := (ilog2q_spec q hq0).1
      have h2 := (ilog2q_spec q' hq'0).2
      have : (2 : ℚ) ^ (ilog2q q' + 1) ≤ 2 ^ ilog2q q :=
        zpow_le_zpow_right₀ (by norm_num) (by omega)
      linarith
    rcases eq_or_lt_of_le he with heq | hlt
    · unfold flPos
      rw [← heq]
      apply mul_le_mul_of_nonneg_right _ (by positivity)
      have := roundEven_mono (q * 2 ^ (52 - ilog2q q)) (q' * 2 ^ (52 - ilog2q q))
        (mul_le_mul_of_nonneg_right hle (by positivity))
      exact_mod_cast this
    · calc flPos q ≤ 2 ^ (ilog2q q + 1) := flPos_upper q hq0
      _ ≤ 2 ^ ilog2q q' := zpow_le_zpow_right₀ (by norm_num) (by omega)
      _ ≤ flPos q' := flPos_lower q' hq'0

theorem fl_eval (q : ℚ) (e m : Int) (hq : 0 < q)
    (hl : (2 : ℚ) ^ e ≤ q) (hu : q < 2 ^ (e + 1))
    (hm : roundEven (q * 2 ^ (52 - e)) = m) :
    fl q = (m : ℚ) * 2 ^ (e - 52) := by
  unfold fl
  rw [if_neg (not_lt.mpr hq.le), if_neg (ne_of_gt hq)]
  unfold flPos
  rw [ilog2q_eq q e hq hl hu, hm]

theorem fl_fix (q : ℚ) (e m : Int) (hq : 0 < q)
    (hl : (2 : ℚ) ^ e ≤ q) (hu : q < 2 ^ (e + 1))
    (hm : (m : ℚ) = q * 2 ^ (52 - e)) : fl q = q := by
  rw [fl_eval q e m hq hl hu (by rw [← hm, roundEven_intCast]), hm]
  rw [mul_assoc, ← zpow_add₀ (by norm_num : (2 : ℚ) ≠ 0)]
  rw [show 52 - e + (e - 52) = (0 : Int) by omega]
  norm_num

theorem fl_one : fl 1 = 1 :=
  fl_fix 1 0 (2 ^ 52) (by norm_num) (by norm_num) (by norm_num) (by norm_num)

theorem fl_hundred : fl 100 = 100 :=
  fl_fix 100 6 (100 * 2 ^ 46) (by norm_num) (by norm_num) (by norm_num) (by norm_num)

theorem fl_natCast_le (k : Nat) (hk : k ≤ 2 ^ 53) : fl (k : ℚ) = k := by
  rcases Nat.eq_zero_or_pos k with h0 | h0
  · subst h0
    simpa using fl_zero
  have hq : (0 : ℚ) < k := by exact_mod_cast h0
  obtain ⟨h1, h2⟩ := ilog2q_spec (k : ℚ) hq
  have he0 : 0 ≤ ilog2q (k : ℚ) := by
    by_contra h
    push_neg at h
    have hle : (2 : ℚ) ^ (ilog2q (k : ℚ) + 1) ≤ 2 ^ (0 : Int) :=
      zpow_le_zpow_right₀ (by norm_num) (by omega)
    have hk1 : (1 : ℚ) ≤ (k : ℚ) := by exact_mod_cast h0
    simp only [zpow_zero] at hle
    linarith
  have he53 : ilog2q (k : ℚ) ≤ 53 := by
    by_contra h
    push_neg at h
    have hle : (2 : ℚ) ^ (54 : Int) ≤ 2 ^ ilog2q (k : ℚ) :=
      zpow_le_zpow_right₀ (by norm_num) (by omega)
    have hk' : (k : ℚ) ≤ ((2 ^ 53 : ℕ) : ℚ) := by exact_mod_cast hk
    have : (2 : ℚ) ^ (54 : Int) ≤ ((2 ^ 53 : ℕ) : ℚ) := by linarith
    norm_num at this
  rcases eq_or_lt_of_le he53 with h53 | h52
  · have hk53 : ((2 ^ 53 : ℕ) : ℚ) ≤ (k : ℚ) := by
      have := h1
      rw [h53] at this
      calc ((2 ^ 53 : ℕ) : ℚ) = (2 : ℚ) ^ (53 : Int) := by norm_num
      _ ≤ (k : ℚ) := this
    have hkeq : k = 2 ^ 53 := by
      have : (2 ^ 53 : ℕ) ≤ k := by exact_mod_cast hk53
      omega
    subst hkeq
    apply fl_fix _ 53 (2 ^ 52) hq (by rw [← h53]; exact h1) (by rw [← h53]; exact h2)
    push_cast
    rw [zpow_neg]
    norm_num
  · have hnn : 0 ≤ 52 - ilog2q (k : ℚ) := by omega
    apply fl_fix (k : ℚ) (ilog2q (k : ℚ)) ((k : Int) * 2 ^ (52 - ilog2q (k : ℚ)).toNat)
      hq h1 h2
    push_cast
    rw [← zpow_natCast (2 : ℚ) (52 - ilog2q (k : ℚ)).toNat, Int.toNat_of_nonneg hnn]

/-- The written bytes of the download loop are the concatenation of the
delivered chunks, for any total. -/
theorem dfLoop_written (total : Nat) (rel_path : String) :
    ∀ (chunks : List Bytes) (downloaded : Nat),
      (dfLoop total rel_path downloaded chunks).1 = chunks.flatten
  | [], _ => rfl
  | c :: rest, downloaded => by
    simp only [dfLoop, dfLoop_written total rel_path rest (downloaded + c.length),
      List.flatten_cons]

/-- A response that does not fail has an ok status. -/
theorem httpOk_of_not_respFails (r : DlResponse) (h : respFails r = false) :
    httpOk r.status = true := by
  unfold respFails at h
  cases hs : httpOk r.status with
  | true => rfl
  | false => rw [hs] at h; simp at h

/-- download_file on a non-ok status fires no events. -/
theorem download_file_events_statusFail (rel_path : String) (r : DlResponse)
    (h : httpOk r.status = false) : (download_file rel_path r).events = [] := by
  unfold download_file
  rw [h]
  simp

/-- The cumulative byte counts form a non-decreasing chain bounded between
the initial count and the initial count plus the total length. -/
theorem cumBytes_facts : ∀ (l : List Nat) (acc : Nat),
    List.Chain' (· ≤ ·) (cumBytes acc l)
    ∧ ∀ x ∈ cumBytes acc l, acc ≤ x ∧ x ≤ acc + l.sum
  | [], _ => ⟨List.chain'_nil, by intro x hx; simp [cumBytes] at hx⟩
  | n :: rest, acc => by
    obtain ⟨hchain, hmem⟩ := cumBytes_facts rest (acc + n)
    constructor
    · unfold cumBytes
      apply List.Chain'.cons'
      · exact hchain
      · intro y hy
        exact ((hmem y (List.mem_of_mem_head? hy)).1)
    · intro x hx
      unfold cumBytes at hx
      rcases List.mem_cons.mp hx with hx | hx
      · subst hx
        refine ⟨Nat.le_add_right acc n, ?_⟩
        simp [Nat.add_assoc, Nat.le_add_right]
      · obtain ⟨h1, h2⟩ := hmem x hx
        refine ⟨le_trans (Nat.le_add_right acc n) h1, ?_⟩
        simpa [Nat.add_assoc] using h2

/-- Appending two non-decreasing percent lists separated by a pivot value
yields a non-decreasing list. -/
theorem chain_append_pivot {l1 l2 : List Int} {B : Int}
    (h1 : List.Chain' (· ≤ ·) l1) (h2 : List.Chain' (· ≤ ·) l2)
    (hb1 : ∀ x ∈ l1, x ≤ B) (hb2 : ∀ y ∈ l2, B ≤ y) :
    List.Chain' (· ≤ ·) (l1 ++ l2) := by
  apply List.Chain'.append h1 h2
  intro x hx y hy
  exact le_trans (hb1 x (List.mem_of_mem_getLast? hx)) (hb2 y (List.mem_of_mem_head? hy))

/-- With a nonzero total, the download loop fires exactly one event per
chunk, at the successive cumulative byte counts, computing the percent in
float arithmetic exactly as the source line does. -/
theorem dfLoop_events_pos (total : Nat) (htotal : total ≠ 0) (rel_path : String) :
    ∀ (chunks : List Bytes) (downloaded : Nat),
      (dfLoop total rel_path downloaded chunks).2
        = (cumBytes downloaded (chunks.map List.length)).map
            (fun b : Nat => (pyInt (fmul (fdiv (b : ℚ) (total : ℚ)) (pyFloat 100)), rel_path))
  | [], _ => rfl
  | c :: rest, downloaded => by
    simp only [dfLoop, dfLoop_events_pos total htotal rel_path rest (downloaded + c.length),
      ne_eq, htotal, not_false_eq_true, if_true, List.map_cons, cumBytes,
      List.singleton_append]

/-- Progress events of download_file on an ok status: none when no
Content-Length is declared or it is declared 0; one event per chunk at
int(downloaded / total * 100) in float arithmetic otherwise. -/
theorem download_file_events_ok (rel_path : String) (r : DlResponse)
    (hok : httpOk r.status = true) :
    (download_file rel_path r).events
      = match r.contentLength with
        | none => []
        | some T =>
          if T = 0 then [] else
            (cumBytes 0 (r.chunks.map List.length)).map
              (fun b : Nat => (pyInt (fmul (fdiv (b : ℚ) (T : ℚ)) (pyFloat 100)), rel_path)) := by
  unfold download_file
  rw [hok]
  simp only [not_true_eq_false, if_false]
  cases hcl : r.contentLength with
  | none => simp only [Option.getD_none, (dfLoop_total_zero rel_path r.chunks 0 : _)]
  | some T =>
    cases hT : decide (T = 0) with
    | true =>
      have hT' : T = 0 := of_decide_eq_true hT
      subst hT'
      simp [Option.getD_some, (dfLoop_total_zero rel_path r.chunks 0 : _)]
    | false =>
      have hT' : T ≠ 0 := of_decide_eq_false hT
      simp only [Option.getD_some, dfLoop_events_pos T hT' rel_path r.chunks 0, if_neg hT']

/-- Events of the download loop from file index i on, when every response
succeeds: for the file at 1-indexed position ip.1 with declared nonzero
total T, one event per chunk whose percent is the full float-arithmetic
evaluation of int((i - 1 + int(bytesReceived / T * 100) / 100) / N * 100);
no events for a file without a nonzero declared total. -/
theorem dmfLoop_events_success (sm u : PyValue) (env : String → DlResponse) (N : Nat)
    (hurl : pyIndex sm "download_url" = .ok u) :
    ∀ (paths : List String) (i : Nat), 1 ≤ i →
      (∀ p ∈ paths, respFails (env p) = false) →
      (dmfLoop sm env N i paths).events
        = (paths.enumFrom i).flatMap (fun ip =>
            match (env ip.2).contentLength with
            | none => []
            | some T =>
              if T = 0 then [] else
                (cumBytes 0 ((env ip.2).chunks.map List.length)).map
                  (fun b : Nat =>
                    (pyInt (fmul (fdiv (fadd (pyFloat ((ip.1 : ℚ) - 1))
                        (fdiv ((pyInt (fmul (fdiv (b : ℚ) (T : ℚ)) (pyFloat 100)) : Int) : ℚ)
                          100))
                      (pyFloat (N : ℚ))) (pyFloat 100)), ip.2)))
  | [], i, _, _ => rfl
  | rel_path :: rest, i, hi, hok => by
    have hhead : respFails (env rel_path) = false := hok rel_path (List.mem_cons_self _ _)
    have herr := download_file_ok_of_not_respFails rel_path (env rel_path) hhead
    have hevs := download_file_events_ok rel_path (env rel_path)
      (httpOk_of_not_respFails (env rel_path) hhead)
    have ih := dmfLoop_events_success sm u env N hurl rest (i + 1)
      (Nat.le_succ_of_le hi) (fun p hp => hok p (List.mem_cons_of_mem _ hp))
    simp only [dmfLoop, hurl, herr]
    rw [List.enumFrom_cons, List.flatMap_cons, ← ih]
    congr 1
    rw [hevs]
    cases hcl : (env rel_path).contentLength with
    | none => simp
    | some T =>
      by_cases hT : T = 0
      · subst hT
        simp
      · simp only [if_neg hT, List.map_map]
        apply List.map_congr_left
        intro b _
        simp only [Function.comp, batchPercent]

/-- The float-computed per-file percentage is nonnegative. -/
theorem filePercentF_nonneg (b T : Nat) :
    0 ≤ pyInt (fmul (fdiv (b : ℚ) (T : ℚ)) (pyFloat 100)) := by
  unfold fmul fdiv pyFloat
  apply pyInt_nonneg
  exact fl_nonneg _ (mul_nonneg (fl_nonneg _ (by positivity)) (fl_nonneg _ (by norm_num)))

/-- The float-computed per-file percentage is monotone in the cumulative
byte count. -/
theorem filePercentF_mono (b b' T : Nat) (hbb : b ≤ b') :
    pyInt (fmul (fdiv (b : ℚ) (T : ℚ)) (pyFloat 100))
      ≤ pyInt (fmul (fdiv (b' : ℚ) (T : ℚ)) (pyFloat 100)) := by
  unfold fmul fdiv pyFloat
  have hd : fl ((b : ℚ) / (T : ℚ)) ≤ fl ((b' : ℚ) / (T : ℚ)) :=
    fl_mono _ _ (by positivity)
      (div_mono_of_nonneg _ _ _ (by exact_mod_cast hbb) (by positivity))
  have h0 : (0 : ℚ) ≤ fl ((b : ℚ) / (T : ℚ)) := fl_nonneg _ (by positivity)
  have h100 : (0 : ℚ) ≤ fl (100 : ℚ) := fl_nonneg _ (by norm_num)
  apply pyInt_mono _ _ (fl_nonneg _ (mul_nonneg h0 h100))
  exact fl_mono _ _ (mul_nonneg h0 h100) (mul_le_mul_of_nonneg_right hd h100)

/-- The float-computed per-file percentage is at most 100 while the
cumulative count stays at most the (nonzero) declared total: every rounded
intermediate is bounded by the corresponding exact fixed point. -/
theorem filePercentF_le_hundred (b T : Nat) (hb : b ≤ T) (hT : T ≠ 0) :
    pyInt (fmul (fdiv (b : ℚ) (T : ℚ)) (pyFloat 100)) ≤ 100 := by
  unfold fmul fdiv pyFloat
  rw [fl_hundred]
  have hT' : (0 : ℚ) < (T : ℚ) := by exact_mod_cast Nat.pos_of_ne_zero hT
  have h0 : (0 : ℚ) ≤ fl ((b : ℚ) / (T : ℚ)) := fl_nonneg _ (by positivity)
  have h1 : fl ((b : ℚ) / (T : ℚ)) ≤ 1 := by
    have := fl_mono ((b : ℚ) / (T : ℚ)) 1 (by positivity)
      (by rw [div_le_one hT']; exact_mod_cast hb)
    rwa [fl_one] at this
  have hprod : fl ((b : ℚ) / (T : ℚ)) * 100 ≤ (100 : ℚ) := by nlinarith
  have hfl : fl (fl ((b : ℚ) / (T : ℚ)) * 100) ≤ (100 : ℚ) := by
    have := fl_mono _ _ (mul_nonneg h0 (by norm_num)) hprod
    rwa [fl_hundred] at this
  calc pyInt (fl (fl ((b : ℚ) / (T : ℚ)) * 100))
      ≤ pyInt 100 := pyInt_mono _ _ (fl_nonneg _ (mul_nonneg h0 (by norm_num))) hfl
  _ = 100 := by unfold pyInt; norm_num

/-- The tail of the batch lambda (the division by the converted file count
and the multiplication by the converted 100, then int()) is monotone on
nonnegative operands. -/
theorem batchTail_mono (x x' : ℚ) (N : Nat) (hx : 0 ≤ x) (hle : x ≤ x') :
    pyInt (fmul (fdiv x (pyFloat (N : ℚ))) (pyFloat 100))
      ≤ pyInt (fmul (fdiv x' (pyFloat (N : ℚ))) (pyFloat 100)) := by
  unfold fmul fdiv pyFloat
  have hNn : (0 : ℚ) ≤ fl ((N : ℚ)) := fl_nonneg _ (by positivity)
  have h100 : (0 : ℚ) ≤ fl (100 : ℚ) := fl_nonneg _ (by norm_num)
  have h3 : fl (x / fl ((N : ℚ))) ≤ fl (x' / fl ((N : ℚ))) :=
    fl_mono _ _ (div_nonneg hx hNn) (div_mono_of_nonneg _ _ _ hle hNn)
  have h3n : (0 : ℚ) ≤ fl (x / fl ((N : ℚ))) := fl_nonneg _ (div_nonneg hx hNn)
  apply pyInt_mono _ _ (fl_nonneg _ (mul_nonneg h3n h100))
  exact fl_mono _ _ (mul_nonneg h3n h100) (mul_le_mul_of_nonneg_right h3 h100)

/-- The batch percentage is monotone in the per-file percentage. -/
theorem batchPercent_mono (i N : Nat) (hi : 1 ≤ i) (p p' : Int) (hp : 0 ≤ p)
    (hle : p ≤ p') : batchPercent i N p ≤ batchPercent i N p' := by
  unfold batchPercent
  have hi1 : (0 : ℚ) ≤ (i : ℚ) - 1 := by
    have : (1 : ℚ) ≤ (i : ℚ) := by exact_mod_cast hi
    linarith
  have hc : (0 : ℚ) ≤ pyFloat ((i : ℚ) - 1) := fl_nonneg _ hi1
  have hp1 : (0 : ℚ) ≤ ((p : Int) : ℚ) := by exact_mod_cast hp
  have h1 : fdiv ((p : Int) : ℚ) 100 ≤ fdiv ((p' : Int) : ℚ) 100 := by
    unfold fdiv
    apply fl_mono _ _ (by positivity)
    apply div_mono_of_nonneg _ _ _ (by exact_mod_cast hle) (by norm_num)
  have h1n : (0 : ℚ) ≤ fdiv ((p : Int) : ℚ) 100 := fl_nonneg _ (by positivity)
  have h2 : fadd (pyFloat ((i : ℚ) - 1)) (fdiv ((p : Int) : ℚ) 100)
      ≤ fadd (pyFloat ((i : ℚ) - 1)) (fdiv ((p' : Int) : ℚ) 100) := by
    unfold fadd
    exact fl_mono _ _ (add_nonneg hc h1n) (by linarith)
  have h2n : (0 : ℚ) ≤ fadd (pyFloat ((i : ℚ) - 1)) (fdiv ((p : Int) : ℚ) 100) :=
    fl_nonneg _ (add_nonneg hc h1n)
  exact batchTail_mono _ _ N h2n h2

/-- The batch percentage at per-file percentage 0 is monotone in the file
index. -/
theorem batchPercent_zero_mono (i i' N : Nat) (hi : 1 ≤ i) (hle : i ≤ i') :
    batchPercent i N 0 ≤ batchPercent i' N 0 := by
  unfold batchPercent
  have hi1 : (0 : ℚ) ≤ (i : ℚ) - 1 := by
    have : (1 : ℚ) ≤ (i : ℚ) := by exact_mod_cast hi
    linarith
  have hii : (i : ℚ) - 1 ≤ (i' : ℚ) - 1 := by
    have : (i : ℚ) ≤ (i' : ℚ) := by exact_mod_cast hle
    linarith
  have h1 : pyFloat ((i : ℚ) - 1) ≤ pyFloat ((i' : ℚ) - 1) := fl_mono _ _ hi1 hii
  have h1n : (0 : ℚ) ≤ pyFloat ((i : ℚ) - 1) := fl_nonneg _ hi1
  have h0n : (0 : ℚ) ≤ fdiv ((0 : Int) : ℚ) 100 := fl_nonneg _ (by norm_num)
  have h2 : fadd (pyFloat ((i : ℚ) - 1)) (fdiv ((0 : Int) : ℚ) 100)
      ≤ fadd (pyFloat ((i' : ℚ) - 1)) (fdiv ((0 : Int) : ℚ) 100) := by
    unfold fadd
    exact fl_mono _ _ (add_nonneg h1n h0n) (by linarith)
  have h2n : (0 : ℚ) ≤ fadd (pyFloat ((i : ℚ) - 1)) (fdiv ((0 : Int) : ℚ) 100) :=
    fl_nonneg _ (add_nonneg h1n h0n)
  exact batchTail_mono _ _ N h2n h2

/-- With a file index below 2 ^ 53 (where int-to-float conversion is exact;
any physically possible batch is far below this), the final per-file
percentage 100 of file i and the initial per-file percentage 0 of file i + 1
map to the same batch percentage. -/
theorem batchPercent_hundred_eq (i N : Nat) (hi : 1 ≤ i) (hi53 : i ≤ 2 ^ 53) :
    batchPercent i N 100 = batchPercent (i + 1) N 0 := by
  unfold batchPercent fadd fdiv pyFloat
  have e1 : (((100 : Int) : ℚ)) / 100 = 1 := by norm_num
  have e2 : (((0 : Int) : ℚ)) / 100 = 0 := by norm_num
  rw [e1, e2, fl_one, fl_zero, add_zero]
  have hfi1 : fl ((i : ℚ) - 1) = (i : ℚ) - 1 := by
    have hc : (((i - 1 : ℕ)) : ℚ) = (i : ℚ) - 1 := by
      push_cast [Nat.cast_sub hi]
      ring
    rw [← hc, fl_natCast_le (i - 1) (by omega)]
  have hcast : ((i + 1 : ℕ) : ℚ) - 1 = (i : ℚ) := by push_cast; ring
  have hfli : fl ((i : ℚ)) = (i : ℚ) := fl_natCast_le i hi53
  rw [hcast, hfi1, hfli]
  have hL : (i : ℚ) - 1 + 1 = (i : ℚ) := by ring
  rw [hL, hfli]

/-- Batch-scaled float percents of one file whose response declares a
Content-Length equal to the bytes actually received: the percent sequence is
non-decreasing and lies between the batch percentages of the start and the
end of that file. -/
theorem perFile_percent_facts (i N : Nat) (hi : 1 ≤ i) (rel_path : String)
    (r : DlResponse) (hok : httpOk r.status = true)
    (hcl : r.contentLength = some ((r.chunks.map List.length).sum)) :
    List.Chain' (· ≤ ·)
      (((download_file rel_path r).events.map
        (fun pe => (batchPercent i N pe.1, pe.2))).map Prod.fst)
    ∧ ∀ x ∈ ((download_file rel_path r).events.map
        (fun pe => (batchPercent i N pe.1, pe.2))).map Prod.fst,
      batchPercent i N 0 ≤ x ∧ x ≤ batchPercent i N 100 := by
  have hevs := download_file_events_ok rel_path r hok
  rw [hevs]
  simp only [hcl]
  by_cases hS : (r.chunks.map List.length).sum = 0
  · rw [if_pos hS]
    exact ⟨List.chain'_nil, by intro x hx; simp at hx⟩
  · rw [if_neg hS]
    set S := (r.chunks.map List.length).sum with hSdef
    obtain ⟨hchain, hmem⟩ := cumBytes_facts (r.chunks.map List.length) 0
    simp only [List.map_map]
    constructor
    · apply List.chain'_map_of_chain' _ _ hchain
      intro a b hab
      simp only [Function.comp]
      exact batchPercent_mono i N hi _ _ (filePercentF_nonneg a S)
        (filePercentF_mono a b S hab)
    · intro x hx
      simp only [List.mem_map, Function.comp] at hx
      obtain ⟨b, hb, rfl⟩ := hx
      have hble : b ≤ S := by
        have := (hmem b hb).2
        simpa using this
      constructor
      · exact batchPercent_mono i N hi 0 _ le_rfl (filePercentF_nonneg b S)
      · exact batchPercent_mono i N hi _ 100 (filePercentF_nonneg b S)
          (filePercentF_le_hundred b S hble hS)

/-- Batch float percents from file index i on are non-decreasing and bounded
below by the batch percentage at the start of file i, whenever every
remaining response declares a Content-Length equal to the bytes actually
received and the batch is no larger than 2 ^ 53 files. -/
theorem dmfLoop_percent_facts (sm : PyValue) (env : String → DlResponse) (N : Nat)
    (hN53 : N ≤ 2 ^ 53) :
    ∀ (paths : List String) (i : Nat), 1 ≤ i → i + paths.length ≤ N + 1 →
      (∀ p ∈ paths, (env p).contentLength = some (((env p).chunks.map List.length).sum)) →
      List.Chain' (· ≤ ·) ((dmfLoop sm env N i paths).events.map Prod.fst)
      ∧ ∀ x ∈ (dmfLoop sm env N i paths).events.map Prod.fst, batchPercent i N 0 ≤ x
  | [], i, _, _, _ => ⟨List.chain'_nil, by intro x hx; simp [dmfLoop] at hx⟩
  | rel_path :: rest, i, hi, hiN, hcl => by
    have hi53 : i ≤ 2 ^ 53 := by
      simp only [List.length_cons] at hiN
      omega
    cases hurl : pyIndex sm "download_url" with
    | error e =>
      simp only [dmfLoop, hurl]
      exact ⟨List.chain'_nil, by intro x hx; simp at hx⟩
    | ok u =>
      have hclhead := hcl rel_path (List.mem_cons_self _ _)
      cases hok : httpOk (env rel_path).status with
      | false =>
        have hevs := download_file_events_statusFail rel_path (env rel_path) hok
        have herr : (download_file rel_path (env rel_path)).err.isSome = true := by
          apply download_file_err_of_respFails
          unfold respFails
          rw [hok]
          rfl
        cases he : (download_file rel_path (env rel_path)).err with
        | none => rw [he] at herr; simp at herr
        | some e =>
          simp only [dmfLoop, hurl, he, hevs]
          exact ⟨List.chain'_nil, by intro x hx; simp at hx⟩
      | true =>
        obtain ⟨hchain1, hmem1⟩ := perFile_percent_facts i N hi rel_path (env rel_path)
          hok hclhead
        cases he : (download_file rel_path (env rel_path)).err with
        | some e =>
          simp only [dmfLoop, hurl, he]
          exact ⟨hchain1, fun x hx => (hmem1 x hx).1⟩
        | none =>
          obtain ⟨hchain2, hmem2⟩ := dmfLoop_percent_facts sm env N hN53 rest (i + 1)
            (Nat.le_succ_of_le hi)
            (by simp only [List.length_cons] at hiN; omega)
            (fun p hp => hcl p (List.mem_cons_of_mem _ hp))
          simp only [dmfLoop, hurl, he, List.map_append]
          constructor
          · apply chain_append_pivot hchain1 hchain2
            · intro x hx
              exact (hmem1 x hx).2
            · intro y hy
              rw [batchPercent_hundred_eq i N hi hi53]
              exact hmem2 y hy
          · intro x hx
            rcases List.mem_append.mp hx with hx | hx
            · exact (hmem1 x hx).1
            · exact le_trans (batchPercent_zero_mono i (i + 1) N hi (Nat.le_succ i))
                (hmem2 x hx)

/-- C6.  Progress monotonicity: in a downloadAll batch of at most 2 ^ 53
files (the range over which Python converts the file index and count to
float exactly; any physically possible batch is far smaller) in which every
HTTP response declares a Content-Length equal to the number of bytes
actually received, the sequence of overallPercent values passed to the
progress callback over the whole batch --- computed, as the program does, in
IEEE-754 double arithmetic --- is non-decreasing (whether or not every file
succeeds: a failing file only truncates the sequence). -/
theorem c6_progress_monotone (sm : PyValue) (env : String → DlResponse)
    (paths : List String) (hN53 : paths.length ≤ 2 ^ 53)
    (hcl : ∀ p ∈ paths, (env p).contentLength = some (((env p).chunks.map List.length).sum)) :
    List.Sorted (· ≤ ·) ((download_missing_files sm paths env).events.map Prod.fst) := by
  rw [List.Sorted, ← List.chain'_iff_pairwise]
  unfold download_missing_files
  by_cases hp : paths.length = 0
  · rw [if_pos hp]
    exact List.chain'_nil
  · rw [if_neg hp]
    exact (dmfLoop_percent_facts sm env paths.length hN53 paths 1 le_rfl
      (by omega) hcl).1

/-- Witness for C6 at a concrete input: a two-file batch, each response
declaring Content-Length 4 and delivering 4 bytes in two chunks. -/
theorem c6_progress_monotone_witness :
    (["a.bin", "b.bin"].length ≤ 2 ^ 53)
    ∧ (∀ p ∈ ["a.bin", "b.bin"], ((fun _ => wResp4) p : DlResponse).contentLength
        = some ((((fun _ => wResp4) p : DlResponse).chunks.map List.length).sum))
    ∧ List.Sorted (· ≤ ·)
        ((download_missing_files wManifest ["a.bin", "b.bin"] (fun _ => wResp4)).events.map
          Prod.fst) := by
  refine ⟨by norm_num, by decide, ?_⟩
  exact c6_progress_monotone wManifest (fun _ => wResp4) ["a.bin", "b.bin"]
    (by norm_num) (by decide)

/-- Binary64 evaluation: the double nearest 29 / 100 lies just below the
exact ratio. -/
theorem fl_29_div_100 : fl ((29 : ℚ) / 100) = (5224175567749775 : ℚ) * 2 ^ (-54 : Int) := by
  rw [fl_eval ((29 : ℚ) / 100) (-2) 5224175567749775 (by norm_num) (by norm_num) (by norm_num)
    (roundEven_eq_of_lt_half _ 5224175567749775 (by norm_num) (by norm_num))]
  norm_num

/-- Binary64 evaluation: multiplying the double nearest 29 / 100 by 100
rounds down to a value strictly below 29. -/
theorem fl_29_times_100 : fl ((5224175567749775 : ℚ) * 2 ^ (-54 : Int) * 100)
    = (8162774324609023 : ℚ) * 2 ^ (-48 : Int) := by
  rw [fl_eval ((5224175567749775 : ℚ) * 2 ^ (-54 : Int) * 100) 4 8162774324609023
    (by norm_num) (by norm_num) (by norm_num)
    (roundEven_eq_of_lt_half _ 8162774324609023 (by norm_num) (by norm_num))]
  norm_num

/-- int(29 / 100 * 100) evaluated in binary64 arithmetic, as Python does, is
28, one below the exact floor 29. -/
theorem inner_percent_29 :
    pyInt (fmul (fdiv (29 : ℚ) (100 : ℚ)) (pyFloat 100)) = 28 := by
  unfold fmul fdiv pyFloat
  rw [fl_29_div_100, fl_hundred, fl_29_times_100]
  rw [pyInt_eq_floor _ (by norm_num)]
  rw [Int.floor_eq_iff]
  norm_num

/-- Binary64 evaluation: the double nearest 28 / 100 lies just above the
exact ratio. -/
theorem fl_28_div_100 : fl ((28 : ℚ) / 100) = (5044031582654956 : ℚ) * 2 ^ (-54 : Int) := by
  rw [fl_eval ((28 : ℚ) / 100) (-2) 5044031582654956 (by norm_num) (by norm_num) (by norm_num)
    ((roundEven_eq_of_half_lt _ 5044031582654955 (by norm_num) (by norm_num) (by norm_num)).trans
      (by norm_num))]
  norm_num

/-- The double nearest 28 / 100 is its own binary64 rounding. -/
theorem fl_fix_28 : fl ((5044031582654956 : ℚ) * 2 ^ (-54 : Int))
    = (5044031582654956 : ℚ) * 2 ^ (-54 : Int) :=
  fl_fix _ (-2) 5044031582654956 (by norm_num) (by norm_num) (by norm_num) (by norm_num)

/-- Binary64 evaluation: multiplying the double nearest 28 / 100 by 100
rounds up to a value strictly between 28 and 29. -/
theorem fl_28_times_100 : fl ((5044031582654956 : ℚ) * 2 ^ (-54 : Int) * 100)
    = (7881299347898369 : ℚ) * 2 ^ (-48 : Int) := by
  rw [fl_eval ((5044031582654956 : ℚ) * 2 ^ (-54 : Int) * 100) 4 7881299347898369
    (by norm_num) (by norm_num) (by norm_num)
    ((roundEven_eq_of_half_lt _ 7881299347898368 (by norm_num) (by norm_num) (by norm_num)).trans
      (by norm_num))]
  norm_num

/-- The batch lambda at i = 1 of N = 1, applied to per-file percent 28,
yields 28 in binary64 arithmetic. -/
theorem batchPercent_1_1_28 : batchPercent 1 1 28 = 28 := by
  unfold batchPercent fadd fmul fdiv pyFloat
  have hc1 : ((1 : Nat) : ℚ) = 1 := by norm_num
  have hc28 : ((28 : Int) : ℚ) = 28 := by norm_num
  rw [hc1, hc28, show (1 : ℚ) - 1 = 0 from by norm_num, fl_zero, fl_28_div_100, zero_add,
    fl_fix_28, fl_one, div_one, fl_fix_28, fl_hundred, fl_28_times_100]
  rw [pyInt_eq_floor _ (by norm_num)]
  rw [Int.floor_eq_iff]
  norm_num

/-- Counterexample to C5 as claimed: a batch of one file of declared total
100 bytes delivered in a single 29-byte chunk. The program computes the
percent with IEEE-754 double division and multiplication, where
29 / 100 * 100 evaluates to 28.999999999999996 and int() truncates to 28 at
both the file and the batch layer, while the exact floor formula of the
claim gives 29. -/
theorem c5_counterexample :
    (download_missing_files wManifest ["a.bin"] (fun _ => wResp29)).events = [(28, "a.bin")]
    ∧ ⌊(((1 : ℚ) - 1 + (⌊(29 : ℚ) / 100 * 100⌋ : ℚ) / 100) / 1) * 100⌋ = 29 := by
  constructor
  · have hstep : (download_missing_files wManifest ["a.bin"] (fun _ => wResp29)).events
        = [(batchPercent 1 1
            (pyInt (fmul (fdiv (((29 : Nat)) : ℚ) (((100 : Nat)) : ℚ)) (pyFloat 100))),
           "a.bin")] := rfl
    rw [hstep]
    have hc29 : (((29 : Nat)) : ℚ) = (29 : ℚ) := by norm_num
    have hc100 : (((100 : Nat)) : ℚ) = (100 : ℚ) := by norm_num
    rw [hc29, hc100, inner_percent_29, batchPercent_1_1_28]
  · have hin : ⌊(29 : ℚ) / 100 * 100⌋ = 29 := by
      rw [Int.floor_eq_iff]
      norm_num
    rw [hin]
    rw [Int.floor_eq_iff]
    norm_num

/-- C5 (amended).  Progress accounting formula as the program computes it:
during downloadAll over a batch in which no response fails, for the i-th
path (1-indexed) of N, whenever the HTTP response declares a nonzero total
content length T, each received chunk produces exactly one progress event
whose percent is int((i - 1 + int(downloaded / T * 100) / 100) / N * 100)
evaluated in IEEE-754 binary64 arithmetic (fdiv, fmul, fadd are the
correctly rounded double operations, pyFloat the int-to-double conversion,
pyInt truncation); this can differ by one from the exact floor formula of
the claim (see the counterexample). When the response declares no content
length, or declares 0, no progress events fire for that file. -/
theorem c5_amended (sm u : PyValue) (env : String → DlResponse)
    (paths : List String) (hurl : pyIndex sm "download_url" = .ok u)
    (hok : ∀ p ∈ paths, respFails (env p) = false) :
    (download_missing_files sm paths env).events
      = (paths.enumFrom 1).flatMap (fun ip =>
          match (env ip.2).contentLength with
          | none => []
          | some T =>
            if T = 0 then [] else
              (cumBytes 0 ((env ip.2).chunks.map List.length)).map
                (fun b : Nat =>
                  (pyInt (fmul (fdiv (fadd (pyFloat ((ip.1 : ℚ) - 1))
                      (fdiv ((pyInt (fmul (fdiv (b : ℚ) (T : ℚ)) (pyFloat 100)) : Int) : ℚ)
                        100))
                    (pyFloat (paths.length : ℚ))) (pyFloat 100)), ip.2))) := by
  unfold download_missing_files
  by_cases hp : paths.length = 0
  · rw [if_pos hp]
    rw [List.length_eq_zero] at hp
    subst hp
    rfl
  · rw [if_neg hp]
    exact dmfLoop_events_success sm u env paths.length hurl paths 1 le_rfl hok

/-- Witness for the amended C5 at a concrete input: the one-file batch of
the counterexample response. -/
theorem c5_amended_witness :
    pyIndex wManifest "download_url" = Except.ok (PyValue.pstr "u")
    ∧ (∀ p ∈ ["a.bin"], respFails ((fun _ => wResp29) p) = false)
    ∧ (download_missing_files wManifest ["a.bin"] (fun _ => wResp29)).events
        = ((["a.bin"] : List String).enumFrom 1).flatMap (fun ip =>
            match ((fun _ => wResp29) ip.2 : DlResponse).contentLength with
            | none => []
            | some T =>
              if T = 0 then [] else
                (cumBytes 0 (((fun _ => wResp29) ip.2 : DlResponse).chunks.map List.length)).map
                  (fun b : Nat =>
                    (pyInt (fmul (fdiv (fadd (pyFloat ((ip.1 : ℚ) - 1))
                        (fdiv ((pyInt (fmul (fdiv (b : ℚ) (T : ℚ)) (pyFloat 100)) : Int) : ℚ)
                          100))
                      (pyFloat (((["a.bin"] : List String)).length : ℚ))) (pyFloat 100)), ip.2))) :=
  ⟨rfl, fun _ _ => rfl,
    c5_amended wManifest (.pstr "u") (fun _ => wResp29) ["a.bin"] rfl (fun _ _ => rfl)⟩

/-- Lookup commutes with mapping a function over the values. -/
theorem alookup_map_value {α β : Type} (f : α → β) (k : String) :
    ∀ l : List (String × α),
      alookup (l.map (fun p => (p.1, f p.2))) k = (alookup l k).map f
  | [] => rfl
  | (k', v) :: rest => by
    simp only [List.map_cons, alookup]
    by_cases h : k' = k
    · rw [if_pos h, if_pos h]
      rfl
    · rw [if_neg h, if_neg h]
      exact alookup_map_value f k rest

/-- A successful lookup is a membership. -/
theorem alookup_eq_some_mem {α : Type} (k : String) (v : α) :
    ∀ l : List (String × α), alookup l k = some v → (k, v) ∈ l
  | [] => by intro h; simp [alookup] at h
  | (k', v') :: rest => by
    intro h
    simp only [alookup] at h
    by_cases hk : k' = k
    · rw [if_pos hk] at h
      injection h with h
      subst hk
      subst h
      exact List.mem_cons_self _ _
    · rw [if_neg hk] at h
      exact List.mem_cons_of_mem _ (alookup_eq_some_mem k v rest h)

/-- Under unique keys, a membership determines the lookup. -/
theorem mem_alookup_of_nodup {α : Type} (k : String) (v : α) :
    ∀ l : List (String × α), (l.map Prod.fst).Nodup → (k, v) ∈ l →
      alookup l k = some v
  | [] => by intro _ h; simp at h
  | (k', v') :: rest => by
    intro hnd hmem
    simp only [List.map_cons, List.nodup_cons] at hnd
    rcases List.mem_cons.mp hmem with heq | hmem'
    · injection heq with h1 h2
      subst h1
      subst h2
      simp [alookup]
    · have hk : k' ≠ k := by
        intro hk
        subst hk
        exact hnd.1 (List.mem_map.mpr ⟨(k', v), hmem', rfl⟩)
      simp only [alookup, if_neg hk]
      exact mem_alookup_of_nodup k v rest hnd.2 hmem'

/-- A failed lookup means the key is absent. -/
theorem alookup_eq_none_iff {α : Type} (k : String) :
    ∀ l : List (String × α), alookup l k = none ↔ k ∉ l.map Prod.fst
  | [] => by simp [alookup]
  | (k', v') :: rest => by
    simp only [alookup, List.map_cons, List.mem_cons]
    by_cases hk : k' = k
    · rw [if_pos hk]
      simp [hk]
    · rw [if_neg hk]
      rw [alookup_eq_none_iff k rest]
      constructor
      · intro h hmem
        rcases hmem with h' | h'
        · exact hk h'.symm
        · exact h h'
      · intro h hmem
        exact h (Or.inr hmem)

/-- Under unique keys, lookup is invariant under permutation of the
entries. -/
theorem alookup_perm {α : Type} (l1 l2 : List (String × α))
    (hnd : (l1.map Prod.fst).Nodup) (hp : l1.Perm l2) (k : String) :
    alookup l1 k = alookup l2 k := by
  have hnd2 : (l2.map Prod.fst).Nodup := ((hp.map Prod.fst).nodup_iff).mp hnd
  cases h : alookup l1 k with
  | some v =>
    exact (mem_alookup_of_nodup k v l2 hnd2
      (hp.mem_iff.mp (alookup_eq_some_mem k v l1 h))).symm
  | none =>
    have hk : k ∉ l2.map Prod.fst := by
      intro hmem
      exact (alookup_eq_none_iff k l1).mp h ((hp.map Prod.fst).mem_iff.mpr hmem)
    exact ((alookup_eq_none_iff k l2).mpr hk).symm

/-- Unfolding of the recursive key sort on a dict, with the attach map
eliminated. -/
theorem sortKeysRec_pdict (d : List (String × PyValue)) :
    sortKeysRec (.pdict d) = .pdict (List.insertionSort (fun a b => a.1 ≤ b.1)
      (d.map (fun p => (p.1, sortKeysRec p.2)))) := by
  simp only [sortKeysRec]
  congr 1
  congr 1
  exact List.attach_map_val d (fun p => (p.1, sortKeysRec p.2))

/-- The key sort leaves strings unchanged. -/
theorem sortKeysRec_pstr (s : String) : sortKeysRec (.pstr s) = .pstr s := by
  simp [sortKeysRec]

/-- C8.  Round-trip persistence: for a manifest dict with unique keys whose
files map has unique keys and string digests, save_local_manifest followed by
load_local_manifest succeeds and yields a manifest whose files mapping is
equal, as a mapping, to the files mapping of the saved manifest, with each
digest value the identical string. -/
theorem c8_round_trip (m : PyValue) (d fd : List (String × PyValue))
    (hm : m = .pdict d)
    (hfiles : alookup d "files" = some (.pdict fd))
    (hndd : (d.map Prod.fst).Nodup)
    (hndf : (fd.map Prod.fst).Nodup)
    (hstr : ∀ p ∈ fd, ∃ s, p.2 = PyValue.pstr s) :
    ∃ m', load_local_manifest (save_local_manifest m) = .ok m'
      ∧ ∃ fd', pyIndex m' "files" = .ok (.pdict fd')
        ∧ ∀ k, alookup fd' k = alookup fd k := by
  subst hm
  refine ⟨sortKeysRec (.pdict d), rfl, ?_⟩
  have hd' : (List.map Prod.fst (d.map (fun p => (p.1, sortKeysRec p.2)))).Nodup := by
    simpa [List.map_map, Function.comp] using hndd
  have hfd' : (List.map Prod.fst (fd.map (fun p => (p.1, sortKeysRec p.2)))).Nodup := by
    simpa [List.map_map, Function.comp] using hndf
  have hlook : alookup (List.insertionSort (fun a b => a.1 ≤ b.1)
      (d.map (fun p => (p.1, sortKeysRec p.2)))) "files"
      = some (sortKeysRec (.pdict fd)) := by
    rw [← alookup_perm _ _ hd'
      ((List.perm_insertionSort _ _).symm) "files"]
    rw [alookup_map_value sortKeysRec "files" d, hfiles]
    rfl
  refine ⟨List.insertionSort (fun a b => a.1 ≤ b.1)
    (fd.map (fun p => (p.1, sortKeysRec p.2))), ?_, ?_⟩
  · rw [sortKeysRec_pdict d]
    simp only [pyIndex, hlook, sortKeysRec_pdict fd]
  · intro k
    rw [← alookup_perm _ _ hfd' ((List.perm_insertionSort _ _).symm) k]
    rw [alookup_map_value sortKeysRec k fd]
    cases hfk : alookup fd k with
    | none => rfl
    | some v =>
      obtain ⟨s, hs⟩ := hstr (k, v) (alookup_eq_some_mem k v fd hfk)
      rw [show v = PyValue.pstr s from hs]
      simp [sortKeysRec_pstr]

/-- Witness for C8 at a concrete input: a manifest with an unsorted files
dict of two string digests round-trips to an equal files mapping. -/
theorem c8_round_trip_witness :
    alookup [("download_url", PyValue.pstr "u"),
        ("files", PyValue.pdict [("b", PyValue.pstr "hb"), ("a", PyValue.pstr "ha")])] "files"
      = some (.pdict [("b", PyValue.pstr "hb"), ("a", PyValue.pstr "ha")])
    ∧ ∃ m', load_local_manifest (save_local_manifest
        (.pdict [("download_url", PyValue.pstr "u"),
          ("files", PyValue.pdict [("b", PyValue.pstr "hb"), ("a", PyValue.pstr "ha")])]))
        = .ok m'
      ∧ ∃ fd', pyIndex m' "files" = .ok (.pdict fd')
        ∧ ∀ k, alookup fd' k
            = alookup [("b", PyValue.pstr "hb"), ("a", PyValue.pstr "ha")] k := by
  refine ⟨rfl, ?_⟩
  exact c8_round_trip
    (.pdict [("download_url", PyValue.pstr "u"),
      ("files", PyValue.pdict [("b", PyValue.pstr "hb"), ("a", PyValue.pstr "ha")])])
    [("download_url", PyValue.pstr "u"),
      ("files", PyValue.pdict [("b", PyValue.pstr "hb"), ("a", PyValue.pstr "ha")])]
    [("b", PyValue.pstr "hb"), ("a", PyValue.pstr "ha")]
    rfl rfl (by decide) (by decide)
    (by
      intro p hp
      fin_cases hp
      · exact ⟨"hb", rfl⟩
      · exact ⟨"ha", rfl⟩)
